import Mathlib

/-!
# Verification of the sinsaju four-pillars core

A shallow embedding, in Lean 4, of the algorithmic core of the sinsaju
calculator (`src/js`): the sexagenary calendar calculator and ten-god
classifier (`lib/sajuwiki/relations.js`), the solar-term solver
(`findSolarTerm`), the continuous five-element trigonometric engine
(`core/trig-engine.js`, first document) and the fortune-scoring engine
(`computeProfile`, second document of `core/trig-engine.js`).

Discrete numeric code is embedded over `ℚ`/`ℤ` (JS numbers act exactly on
these values at the scales involved); the trigonometric engine and the
astronomical solver are embedded over `ℝ`.

The repository's `constants.js` module is not part of the provided source
tree.  Every table that has a duplicate inside the provided sources
(element tables, triad/half-combine tables, generate/overcome cycles,
wang positions, six-combine pairs, fortune weights) is transcribed from
that in-source duplicate, with the duplicate named in the doc comment.
The few values with no in-source duplicate (stem combine/clash pairs,
natal stem/branch weights) are modelled from the spec and marked
`Modelled from the spec:` in their doc comments.
-/

namespace Sinsaju

/-- The five elements (오행), in the canonical order 목, 화, 토, 금, 수
used by `OHENG_KEYS` in `trig-engine.js`. -/
inductive El
  | mok
  | hwa
  | to
  | geum
  | su
  deriving DecidableEq, Repr, Fintype

/-- Canonical iteration order of the five elements (`OHENG` / `OHENG_KEYS`). -/
def ohengKeys : List El := [.mok, .hwa, .to, .geum, .su]

/-- Polarity (음양). -/
inductive Polar
  | yang
  | yin
  deriving DecidableEq, Repr, Fintype

/-- Pillar positions: the four natal pillars plus the three overlay
(fortune) pillars handled by `computeProfile`. -/
inductive Pos
  | hour
  | day
  | month
  | year
  | daeun
  | saeun
  | wolun
  deriving DecidableEq, Repr, Fintype

/-- The ten ten-god (십성) labels returned by `SajuCalculator.getTenGod`,
plus the `unknown` constructor standing for the `'?'` fallback string. -/
inductive TenGod
  | bigyeon
  | gyeopjae
  | siksin
  | sanggwan
  | pyeonjae
  | jeongjae
  | pyeongwan
  | jeonggwan
  | pyeonin
  | jeongin
  | unknown
  deriving DecidableEq, Repr, Fintype

/-- Element of each heavenly stem (`CHEONGAN_OHENG`); matches the
in-source duplicate `STEM_ELEMENTS = ['목','목','화','화','토','토','금','금','수','수']`
and `Math.floor(stemIdx / 2)` in `getTenGod`. -/
def cheonganOheng : Fin 10 → El
  | 0 => .mok
  | 1 => .mok
  | 2 => .hwa
  | 3 => .hwa
  | 4 => .to
  | 5 => .to
  | 6 => .geum
  | 7 => .geum
  | 8 => .su
  | 9 => .su

/-- Polarity of each stem (`CHEONGAN_EUMYANG`): even index 양, odd 음. -/
def cheonganEumyang (s : Fin 10) : Polar :=
  if s.val % 2 = 0 then .yang else .yin

/-- Element of each earthly branch (`JIJI_OHENG`); matches the in-source
duplicate in `branchToElement`:
`['수','토','목','목','토','화','화','토','금','금','토','수']`. -/
def jijiOheng : Fin 12 → El
  | 0 => .su
  | 1 => .to
  | 2 => .mok
  | 3 => .mok
  | 4 => .to
  | 5 => .hwa
  | 6 => .hwa
  | 7 => .to
  | 8 => .geum
  | 9 => .geum
  | 10 => .to
  | 11 => .su

/-- Polarity of each branch's main hidden stem (`BONGI_EUMYANG`); derived
from the 본기 hidden stems in `branch-profile.js`
(계,기,갑,을,무,병,정,기,경,신,무,임). -/
def bongiEumyang : Fin 12 → Polar
  | 0 => .yin
  | 1 => .yin
  | 2 => .yang
  | 3 => .yin
  | 4 => .yang
  | 5 => .yang
  | 6 => .yin
  | 7 => .yin
  | 8 => .yang
  | 9 => .yin
  | 10 => .yang
  | 11 => .yang

/-- Per-branch five-element ratios (`BRANCH_OHENG_RATIOS` in
`trig-engine.js`, identical to the `ohengRatio` rows of
`branch-profile.js`), as exact rationals. -/
def branchOhengRatiosQ : Fin 12 → El → ℚ
  | 0, .su => 1
  | 1, .to => 6/10
  | 1, .geum => 1/10
  | 1, .su => 3/10
  | 2, .mok => 6/10
  | 2, .hwa => 2/10
  | 2, .to => 2/10
  | 3, .mok => 1
  | 4, .mok => 3/10
  | 4, .to => 6/10
  | 4, .su => 1/10
  | 5, .hwa => 6/10
  | 5, .to => 2/10
  | 5, .geum => 2/10
  | 6, .hwa => 1
  | 7, .mok => 1/10
  | 7, .hwa => 3/10
  | 7, .to => 6/10
  | 8, .to => 2/10
  | 8, .geum => 6/10
  | 8, .su => 2/10
  | 9, .geum => 1
  | 10, .hwa => 1/10
  | 10, .to => 6/10
  | 10, .geum => 3/10
  | 11, .mok => 2/10
  | 11, .to => 2/10
  | 11, .su => 6/10
  | _, _ => 0

/-- Branch element distribution `BR_EL[bi]` as a list of
(element, ratio) pairs, the nonzero entries of the ratio row in the
canonical element order (the `{e, r}` records of `constants.js`,
equivalent to the `branch-profile.js` rows). -/
def brEl (bi : Fin 12) : List (El × ℚ) :=
  ohengKeys.filterMap fun e =>
    if branchOhengRatiosQ bi e ≠ 0 then some (e, branchOhengRatiosQ bi e) else none

/-- Generate cycle on element indices (`OHENG_RELATIONS.생`), as spelled
out in the source comments: 목→화→토→금→수→목. -/
def ohengSaeng : Fin 5 → Fin 5
  | 0 => 1
  | 1 => 2
  | 2 => 3
  | 3 => 4
  | 4 => 0

/-- Overcome cycle on element indices (`OHENG_RELATIONS.극`), as spelled
out in the source comments: 목→토, 화→금, 토→수, 금→목, 수→화. -/
def ohengGeuk : Fin 5 → Fin 5
  | 0 => 2
  | 1 => 3
  | 2 => 4
  | 3 => 0
  | 4 => 1

/-- Element index (0=목 … 4=수) of a stem: `Math.floor(stemIdx / 2)`. -/
def stemElementIdx (s : Fin 10) : Fin 5 :=
  ⟨s.val / 2, by omega⟩

/-- `SajuCalculator.getTenGod(dayStemIdx, targetStemIdx)`: classify the
target stem relative to the day stem through element equality, the
generate/overcome cycles, and parity; `unknown` models the `'?'`
fallback return. -/
def getTenGod (dayStemIdx targetStemIdx : Fin 10) : TenGod :=
  if dayStemIdx = targetStemIdx then .bigyeon
  else
    let dayElement := stemElementIdx dayStemIdx
    let targetElement := stemElementIdx targetStemIdx
    let sameParity := dayStemIdx.val % 2 = targetStemIdx.val % 2
    if dayElement = targetElement then
      if sameParity then .bigyeon else .gyeopjae
    else if ohengSaeng dayElement = targetElement then
      if sameParity then .siksin else .sanggwan
    else if ohengGeuk dayElement = targetElement then
      if sameParity then .pyeonjae else .jeongjae
    else if ohengSaeng targetElement = dayElement then
      if sameParity then .pyeonin else .jeongin
    else if ohengGeuk targetElement = dayElement then
      if sameParity then .pyeongwan else .jeonggwan
    else .unknown

/-- `OhengAnalyzer.el2si(el, yy)`: stem index representing an element with
a given polarity (목:0, 화:2, 토:4, 금:6, 수:8, plus 1 when 음). -/
def el2si (e : El) (yy : Polar) : Fin 10 :=
  let b : Fin 10 := match e with
    | .mok => 0
    | .hwa => 2
    | .to => 4
    | .geum => 6
    | .su => 8
  if yy = .yin then b + 1 else b

/-- `OhengAnalyzer.resFactor(p1, p2, target)`: the position-pair
resistance multiplier applied to combine/clash transformations between
adjacent natal pillars. -/
def resFactor (p1 p2 target : Pos) : ℚ :=
  if p1 = .hour ∧ p2 = .day ∧ target = .day then 1/2
  else if p1 = .day ∧ p2 = .month then 1/2
  else if p1 = .month ∧ p2 = .year ∧ target = .month then 1/2
  else 1

/-- Result of a stem/branch pair check: a combine toward an element (the
element extracted by the `/합\((.)\)/` match on the description), or a
clash. -/
inductive Rel
  | comb (e : El)
  | clash
  deriving DecidableEq, Repr

/-- Modelled from the spec: `STEM_COMBINE` lives in the absent
`constants.js`.  The spec fixes "stem-combine (5 pairs → 1 derived
element each)"; the pairs are the canonical 천간합 series
갑기합토, 을경합금, 병신합수, 정임합목, 무계합화. -/
def stemCombineTable : List (Fin 10 × Fin 10 × El) :=
  [(0, 5, .to), (1, 6, .geum), (2, 7, .su), (3, 8, .mok), (4, 9, .hwa)]

/-- Modelled from the spec: `STEM_CLASH` lives in the absent
`constants.js`.  The spec fixes "stem-clash (4 pairs)"; the pairs are the
canonical 천간충 series 갑경, 을신, 병임, 정계. -/
def stemClashTable : List (Fin 10 × Fin 10) :=
  [(0, 6), (1, 7), (2, 8), (3, 9)]

/-- Six-combine pairs (`BRANCH_COMBINE`); the first five match the
in-source duplicate `육합tbl` in `gunghap-helpers.js`, and the spec's
"branch six-combine (6 pairs)" adds the canonical sixth pair 오미합(화). -/
def branchCombineTable : List (Fin 12 × Fin 12 × El) :=
  [(0, 1, .to), (2, 11, .mok), (3, 10, .hwa), (4, 9, .geum), (5, 8, .su), (6, 7, .hwa)]

/-- Branch clash pairs (`BRANCH_CLASH`): the six opposite-branch pairs,
consistent with the 자오충/사해충/인신충/묘유충 pairs named in the
`TONGGWAN_MAP` comments of the fortune scorer. -/
def branchClashTable : List (Fin 12 × Fin 12) :=
  [(0, 6), (1, 7), (2, 8), (3, 9), (4, 10), (5, 11)]

/-- Half-combine pairs (`BANHAP_TABLE`); matches the in-source duplicate
`checkSamhapHalf` table in `gunghap-helpers.js` (8 pairs). -/
def banhapTable : List (Fin 12 × Fin 12 × El) :=
  [(2, 6, .hwa), (6, 10, .hwa), (5, 9, .geum), (9, 1, .geum),
   (8, 0, .su), (0, 4, .su), (11, 3, .mok), (3, 7, .mok)]

/-- Wang (왕지) branches (`WANGJI`); matches the `samhapPosition: 'wang'`
rows of `branch-profile.js` (자, 묘, 오, 유). -/
def wangjiSet : List (Fin 12) := [0, 3, 6, 9]

/-- Full-triad combine table (`TRIPLE_COMBINE`); matches the in-source
duplicate `checkSamhapFull` table in `gunghap-helpers.js`. -/
def tripleCombineTable : List (Fin 12 × Fin 12 × Fin 12 × El) :=
  [(2, 6, 10, .hwa), (5, 9, 1, .geum), (8, 0, 4, .su), (11, 3, 7, .mok)]

/-- `OhengAnalyzer.checkStemPair(s1, s2)`: combine matches first, then
clash matches, in table order. -/
def checkStemPair (s1 s2 : Fin 10) : List Rel :=
  (stemCombineTable.filterMap fun t =>
    if (s1 = t.1 ∧ s2 = t.2.1) ∨ (s1 = t.2.1 ∧ s2 = t.1) then some (Rel.comb t.2.2) else none) ++
  (stemClashTable.filterMap fun t =>
    if (s1 = t.1 ∧ s2 = t.2) ∨ (s1 = t.2 ∧ s2 = t.1) then some Rel.clash else none)

/-- `OhengAnalyzer.checkBranchPair(b1, b2)`: six-combine matches first,
then clash matches, in table order. -/
def checkBranchPair (b1 b2 : Fin 12) : List Rel :=
  (branchCombineTable.filterMap fun t =>
    if (b1 = t.1 ∧ b2 = t.2.1) ∨ (b1 = t.2.1 ∧ b2 = t.1) then some (Rel.comb t.2.2) else none) ++
  (branchClashTable.filterMap fun t =>
    if (b1 = t.1 ∧ b2 = t.2) ∨ (b1 = t.2 ∧ b2 = t.1) then some Rel.clash else none)

/-- First matching half-combine element for a branch pair, mirroring the
`BANHAP_TABLE` scan in `_applyBanhap`. -/
def banhapEl (b1 b2 : Fin 12) : Option El :=
  (banhapTable.filter fun t => (b1 = t.1 ∧ b2 = t.2.1) ∨ (b1 = t.2.1 ∧ b2 = t.1)).head?.map
    fun t => t.2.2

/-- Modelled from the spec: the natal stem weights `STEM_W` live in the
absent `constants.js`.  The spec (§4.3) fixes the combined proportions
"month 30%, day 20%, hour 15%, year 15%, stems(天干) 20%"; the stem share
is modelled as evenly split over the four pillars. -/
def stemW : Pos → ℚ
  | .hour => 5
  | .day => 5
  | .month => 5
  | .year => 5
  | _ => 0

/-- Modelled from the spec: the natal branch weights `BR_W` live in the
absent `constants.js`; modelled as the per-pillar proportions of §4.3
(month 30, day 20, hour 15, year 15). -/
def brW : Pos → ℚ
  | .hour => 15
  | .day => 20
  | .month => 30
  | .year => 15
  | _ => 0

/-- `FORTUNE_STEM_W = { daeun: 12, saeun: 8, wolun: 4 }`. -/
def fortuneStemW : Pos → ℚ
  | .daeun => 12
  | .saeun => 8
  | .wolun => 4
  | _ => 0

/-- `FORTUNE_BR_W = { daeun: 18, saeun: 12, wolun: 6 }`. -/
def fortuneBrW : Pos → ℚ
  | .daeun => 18
  | .saeun => 12
  | .wolun => 6
  | _ => 0

/-- `FORTUNE_INTERACTION_W = { month: 1.0, day: 0.77, year: 0.5, hour: 0.5 }`
(the `|| 0.5` default never fires, natal positions are all keyed). -/
def fortuneInteractionW : Pos → ℚ
  | .month => 1
  | .day => 77/100
  | .year => 1/2
  | .hour => 1/2
  | _ => 1/2

/-- `FORTUNE_DAMPEN = 0.35`. -/
def fortuneDampen : ℚ := 35/100

/-- `TONGGWAN_MAP`: the generate-cycle mediator between two clashing
elements, exactly the ten keys listed in the fortune scorer. -/
def tonggwanMap : El → El → Option El
  | .su, .hwa => some .mok
  | .hwa, .su => some .mok
  | .mok, .geum => some .su
  | .geum, .mok => some .su
  | .hwa, .geum => some .to
  | .geum, .hwa => some .to
  | .mok, .to => some .hwa
  | .to, .mok => some .hwa
  | .to, .su => some .geum
  | .su, .to => some .geum
  | _, _ => none

/-- `CLASH_BASE_DISRUPTION = 0.012`. -/
def clashBaseDisruption : ℚ := 12/1000

/-- `DISRUPTION_CAP = 0.04`. -/
def disruptionCap : ℚ := 4/100

/-- `TONGGWAN_ABSORB = 0.75`. -/
def tonggwanAbsorb : ℚ := 75/100

/-- `EOKBU_ABSORB = 0.25`. -/
def eokbuAbsorb : ℚ := 25/100

/-- Per-stem state kept by `computeProfile` (`sd[p]`): stem index,
element, weight, remaining own-factor `of`, and transform list `tr`. -/
structure StemData where
  si : Fin 10
  el : El
  w : ℚ
  of : ℚ
  tr : List (El × ℚ)
  deriving DecidableEq, Repr

/-- Per-branch state kept by `computeProfile` (`bd[p]`): branch index,
element distribution, weight, own-factor, transform list, and the
polarity of the branch's main hidden stem. -/
structure BranchData where
  bi : Fin 12
  dist : List (El × ℚ)
  w : ℚ
  of : ℚ
  tr : List (El × ℚ)
  yy : Polar
  deriving DecidableEq, Repr

/-- A recorded clash event: the two clashing elements and the event
weight (1 for natal-internal clashes, `iw * FORTUNE_DAMPEN` for
overlay-vs-natal clashes). -/
structure ClashEvent where
  elA : El
  elB : El
  weight : ℚ
  deriving DecidableEq, Repr

/-- An entry of the `interactions` output list (type, source, target);
`samhap` carries the member list the source joins into a string. -/
inductive Interaction
  | stemComb (source target : Pos)
  | stemClash (source target : Pos)
  | branchComb (source target : Pos)
  | branchClash (source target : Pos)
  | banhap (source target : Pos)
  | samhap (members : List Pos)
  deriving DecidableEq, Repr

/-- The mutable state threaded through Step 2 of `computeProfile`. -/
structure PState where
  sd : Pos → StemData
  bd : Pos → BranchData
  interactions : List Interaction
  clashEvents : List ClashEvent
  combinedStems : List Pos
  combinedBranches : List Pos

/-- Natal chart input: the four 60-cycle pillar indices
(`natalDiscrete.idxs`). -/
structure NatalIdxs where
  hour : Fin 60
  day : Fin 60
  month : Fin 60
  year : Fin 60
  deriving DecidableEq, Repr

/-- Overlay pillar input (`fortunePillars`). -/
structure FortunePillars where
  daeun : Option (Fin 60)
  saeun : Option (Fin 60)
  wolun : Option (Fin 60)
  deriving DecidableEq, Repr

/-- The empty overlay input `{}`. -/
def noFortune : FortunePillars := ⟨none, none, none⟩

/-- Stem index of a 60-cycle index (`idx60 % 10`). -/
def stemOf (i : Fin 60) : Fin 10 := ⟨i.val % 10, by omega⟩

/-- Branch index of a 60-cycle index (`idx60 % 12`). -/
def branchOf (i : Fin 60) : Fin 12 := ⟨i.val % 12, by omega⟩

/-- The active natal positions, in source order: hour, day, month, year
when the birth time is known, otherwise day, month, year. -/
def natalPositions (hasTime : Bool) : List Pos :=
  if hasTime then [.hour, .day, .month, .year] else [.day, .month, .year]

/-- The natal pillar index at a natal position (unused at overlay
positions). -/
def natalIdx (n : NatalIdxs) : Pos → Fin 60
  | .hour => n.hour
  | .day => n.day
  | .month => n.month
  | .year => n.year
  | _ => 0

/-- The overlay pillar index at an overlay position, when present. -/
def fortuneIdx (f : FortunePillars) : Pos → Option (Fin 60)
  | .daeun => f.daeun
  | .saeun => f.saeun
  | .wolun => f.wolun
  | _ => none

/-- The active overlay positions, in source order daeun, saeun, wolun. -/
def fortunePositions (f : FortunePillars) : List Pos :=
  [Pos.daeun, Pos.saeun, Pos.wolun].filter fun p => (fortuneIdx f p).isSome

/-- Natal stem record for position `p` with 60-cycle index `i`. -/
def mkNatalStem (p : Pos) (i : Fin 60) : StemData :=
  ⟨stemOf i, cheonganOheng (stemOf i), stemW p, 1, []⟩

/-- Natal branch record; we model the `natalAngles = null` path, where
`dist` is the static `BR_EL` row. -/
def mkNatalBranch (p : Pos) (i : Fin 60) : BranchData :=
  ⟨branchOf i, brEl (branchOf i), brW p, 1, [], bongiEumyang (branchOf i)⟩

/-- Overlay stem record. -/
def mkFortuneStem (p : Pos) (i : Fin 60) : StemData :=
  ⟨stemOf i, cheonganOheng (stemOf i), fortuneStemW p, 1, []⟩

/-- Overlay branch record.  The source computes
`_angleToDist(bi * 30)` from the continuous engine; at a branch-center
angle that distribution equals the static `BR_EL` row (this is the
knot-exactness property proved below for the real-valued engine), so the
embedding uses the row directly. -/
def mkFortuneBranch (p : Pos) (i : Fin 60) : BranchData :=
  ⟨branchOf i, brEl (branchOf i), fortuneBrW p, 1, [], bongiEumyang (branchOf i)⟩

/-- A placeholder record for inactive positions; never read by the
computation (inactive positions appear in no position list). -/
def defaultStemData : StemData := ⟨0, cheonganOheng 0, 0, 1, []⟩

/-- Placeholder branch record for inactive positions. -/
def defaultBranchData : BranchData := ⟨0, brEl 0, 0, 1, [], bongiEumyang 0⟩

/-- Step 1 of `computeProfile`: build the stem/branch records for the
active natal and overlay positions. -/
def initState (n : NatalIdxs) (hasTime : Bool) (f : FortunePillars) : PState :=
  let nps := natalPositions hasTime
  { sd := fun p =>
      if p ∈ nps then mkNatalStem p (natalIdx n p)
      else match fortuneIdx f p with
        | some i => mkFortuneStem p i
        | none => defaultStemData
    bd := fun p =>
      if p ∈ nps then mkNatalBranch p (natalIdx n p)
      else match fortuneIdx f p with
        | some i => mkFortuneBranch p i
        | none => defaultBranchData
    interactions := []
    clashEvents := []
    combinedStems := []
    combinedBranches := [] }

/-- Override the stem record at one position. -/
def updSd (st : PState) (p : Pos) (g : StemData → StemData) : PState :=
  { st with sd := fun q => if q = p then g (st.sd q) else st.sd q }

/-- Override the branch record at one position. -/
def updBd (st : PState) (p : Pos) (g : BranchData → BranchData) : PState :=
  { st with bd := fun q => if q = p then g (st.bd q) else st.bd q }

/-- Process one stem relation between adjacent natal pillars `p1, p2`
(Step 2-1, 천간 branch of the loop body). -/
def natalStemRel (p1 p2 : Pos) (st : PState) (r : Rel) : PState :=
  match r with
  | .comb e =>
    let rf1 := resFactor p1 p2 p1
    let rf2 := resFactor p1 p2 p2
    let st1 := updSd st p1 fun s =>
      { s with tr := s.tr ++ [(e, 1/3 * rf1)], of := s.of * (1 - 1/3 * rf1) }
    let st2 := updSd st1 p2 fun s =>
      { s with tr := s.tr ++ [(e, 1/3 * rf2)], of := s.of * (1 - 1/3 * rf2) }
    { st2 with
      combinedStems := st2.combinedStems ++ [p1, p2],
      interactions := st2.interactions ++ [.stemComb p1 p2] }
  | .clash =>
    { st with
      clashEvents := st.clashEvents ++ [⟨(st.sd p1).el, (st.sd p2).el, 1⟩],
      interactions := st.interactions ++ [.stemClash p1 p2] }

/-- Process one branch relation between adjacent natal pillars
(Step 2-1, 지지 branch of the loop body); clash elements come from
`JIJI_OHENG`. -/
def natalBranchRel (p1 p2 : Pos) (st : PState) (r : Rel) : PState :=
  match r with
  | .comb e =>
    let rf1 := resFactor p1 p2 p1
    let rf2 := resFactor p1 p2 p2
    let st1 := updBd st p1 fun b =>
      { b with tr := b.tr ++ [(e, 2/3 * rf1)], of := b.of * (1 - 2/3 * rf1) }
    let st2 := updBd st1 p2 fun b =>
      { b with tr := b.tr ++ [(e, 2/3 * rf2)], of := b.of * (1 - 2/3 * rf2) }
    { st2 with
      combinedBranches := st2.combinedBranches ++ [p1, p2],
      interactions := st2.interactions ++ [.branchComb p1 p2] }
  | .clash =>
    { st with
      clashEvents := st.clashEvents ++
        [⟨jijiOheng (st.bd p1).bi, jijiOheng (st.bd p2).bi, 1⟩],
      interactions := st.interactions ++ [.branchClash p1 p2] }

/-- `_applyBanhap(bd, p1, p2, interactions)`: half-combine between
adjacent natal pillars, with the wang-position fractions on the
month-year and day-hour pairs. -/
def natalBanhap (st : PState) (p1 p2 : Pos) : PState :=
  match banhapEl (st.bd p1).bi (st.bd p2).bi with
  | none => st
  | some el =>
    let isPair := (p1 = .month ∧ p2 = .year) ∨ (p1 = .day ∧ p2 = .hour)
    let fs : ℚ × ℚ :=
      if isPair then
        let w1 := wangjiSet.contains (st.bd p1).bi
        let w2 := wangjiSet.contains (st.bd p2).bi
        if w1 ∧ ¬w2 then (1/6, 2/3)
        else if ¬w1 ∧ w2 then (1/3, 1/6)
        else (1/3, 1/3)
      else (2/3 * resFactor p1 p2 p1, 2/3 * resFactor p1 p2 p2)
    let st1 := updBd st p1 fun b =>
      { b with tr := b.tr ++ [(el, fs.1)], of := b.of * (1 - fs.1) }
    let st2 := updBd st1 p2 fun b =>
      { b with tr := b.tr ++ [(el, fs.2)], of := b.of * (1 - fs.2) }
    { st2 with interactions := st2.interactions ++ [.banhap p1 p2] }

/-- Step 2-1 body for one adjacent natal pair. -/
def natalPairStep (st : PState) (pr : Pos × Pos) : PState :=
  let st1 := (checkStemPair (st.sd pr.1).si (st.sd pr.2).si).foldl
    (natalStemRel pr.1 pr.2) st
  let st2 := (checkBranchPair (st1.bd pr.1).bi (st1.bd pr.2).bi).foldl
    (natalBranchRel pr.1 pr.2) st1
  natalBanhap st2 pr.1 pr.2

/-- Process one overlay-vs-natal stem relation (Step 2-2, 천간). -/
def fortuneStemRel (fp np : Pos) (iw : ℚ) (st : PState) (r : Rel) : PState :=
  match r with
  | .comb e =>
    let fv := 1/3 * iw * fortuneDampen
    let st1 := updSd st fp fun s => { s with tr := s.tr ++ [(e, fv)], of := s.of * (1 - fv) }
    let st2 := updSd st1 np fun s => { s with tr := s.tr ++ [(e, fv)], of := s.of * (1 - fv) }
    { st2 with interactions := st2.interactions ++ [.stemComb fp np] }
  | .clash =>
    { st with
      clashEvents := st.clashEvents ++ [⟨(st.sd fp).el, (st.sd np).el, iw * fortuneDampen⟩],
      interactions := st.interactions ++ [.stemClash fp np] }

/-- Process one overlay-vs-natal branch relation (Step 2-2, 지지). -/
def fortuneBranchRel (fp np : Pos) (iw : ℚ) (st : PState) (r : Rel) : PState :=
  match r with
  | .comb e =>
    let fv := 2/3 * iw * fortuneDampen
    let st1 := updBd st fp fun b => { b with tr := b.tr ++ [(e, fv)], of := b.of * (1 - fv) }
    let st2 := updBd st1 np fun b => { b with tr := b.tr ++ [(e, fv)], of := b.of * (1 - fv) }
    { st2 with interactions := st2.interactions ++ [.branchComb fp np] }
  | .clash =>
    { st with
      clashEvents := st.clashEvents ++
        [⟨jijiOheng (st.bd fp).bi, jijiOheng (st.bd np).bi, iw * fortuneDampen⟩],
      interactions := st.interactions ++ [.branchClash fp np] }

/-- `_applyBanhapWithWeight`: overlay-vs-natal half-combine. -/
def fortuneBanhap (st : PState) (fp np : Pos) (iw : ℚ) : PState :=
  match banhapEl (st.bd fp).bi (st.bd np).bi with
  | none => st
  | some el =>
    let fv := 1/3 * iw * fortuneDampen
    let st1 := updBd st fp fun b => { b with tr := b.tr ++ [(el, fv)], of := b.of * (1 - fv) }
    let st2 := updBd st1 np fun b => { b with tr := b.tr ++ [(el, fv)], of := b.of * (1 - fv) }
    { st2 with interactions := st2.interactions ++ [.banhap fp np] }

/-- Step 2-2 body for one (overlay, natal) position pair: the stem block
and the branch/half-combine blocks are each skipped when the natal
position was already consumed by an internal combine. -/
def fortunePairStep (st : PState) (fp np : Pos) : PState :=
  let iw := fortuneInteractionW np
  let st1 :=
    if st.combinedStems.contains np then st
    else (checkStemPair (st.sd fp).si (st.sd np).si).foldl (fortuneStemRel fp np iw) st
  let st2 :=
    if st1.combinedBranches.contains np then st1
    else (checkBranchPair (st1.bd fp).bi (st1.bd np).bi).foldl (fortuneBranchRel fp np iw) st1
  if st2.combinedBranches.contains np then st2
  else fortuneBanhap st2 fp np iw

/-- `_applyTripleCombine`: full-triad detection over all active
positions, damping triads that involve an overlay pillar. -/
def applyTripleCombine (st : PState) (allPos : List Pos) (fps : List Pos) : PState :=
  tripleCombineTable.foldl (fun st t =>
    let posA := allPos.filter fun p => (st.bd p).bi = t.1
    let posB := allPos.filter fun p => (st.bd p).bi = t.2.1
    let posC := allPos.filter fun p => (st.bd p).bi = t.2.2.1
    if posA ≠ [] ∧ posB ≠ [] ∧ posC ≠ [] then
      let allTriple := posA ++ posB ++ posC
      let damp := if allTriple.any fun p => fps.contains p then fortuneDampen else 1
      let fv := 2/3 * (1/2) * damp
      let st1 := allTriple.foldl (fun st pos =>
        updBd st pos fun b => { b with tr := b.tr ++ [(t.2.2.2, fv)], of := b.of * (1 - fv) }) st
      { st1 with interactions := st1.interactions ++ [.samhap allTriple] }
    else st) st

/-- Add `v` to the entry of one element. -/
def updOh (oh : El → ℚ) (e : El) (v : ℚ) : El → ℚ :=
  fun x => if x = e then oh x + v else oh x

/-- Stem contribution of one position to the element totals (Step 3,
first loop body): the stem's element at `w * of`, plus each transform at
`w * f`. -/
def addStemOheng (oh : El → ℚ) (s : StemData) : El → ℚ :=
  s.tr.foldl (fun acc t => updOh acc t.1 (s.w * t.2)) (updOh oh s.el (s.w * s.of))

/-- Branch contribution of one position (Step 3, second loop body). -/
def addBranchOheng (oh : El → ℚ) (b : BranchData) : El → ℚ :=
  b.tr.foldl (fun acc t => updOh acc t.1 (b.w * t.2))
    (b.dist.foldl (fun acc d => updOh acc d.1 (b.w * d.2 * b.of)) oh)

/-- Step 3: weighted element accumulation over all active positions. -/
def accumOheng (st : PState) (allPos : List Pos) : El → ℚ :=
  allPos.foldl (fun acc p => addBranchOheng acc (st.bd p))
    (allPos.foldl (fun acc p => addStemOheng acc (st.sd p)) fun _ => 0)

/-- Sum of the five element totals (`Object.values(oh).reduce(...)`). -/
def ohSum (oh : El → ℚ) : ℚ :=
  (ohengKeys.map oh).sum

/-- The `Object.values(oh).reduce(...) || 1` guarded total. -/
def ohTotalOr1 (oh : El → ℚ) : ℚ :=
  if ohSum oh = 0 then 1 else ohSum oh

/-- The loop body of `_computeDisruption` for one clash event: base
disruption times weight, 75% absorbed when the bridging element holds
more than 10% of the profile, halved for earth-vs-earth. -/
def clashEventDisruption (oh : El → ℚ) (c : ClashEvent) : ℚ :=
  let d := clashBaseDisruption * c.weight
  let d := match tonggwanMap c.elA c.elB with
    | some bridge => if 1/10 < oh bridge / ohTotalOr1 oh then d * (1 - tonggwanAbsorb) else d
    | none => d
  if c.elA = .to ∧ c.elB = .to then d * (1/2) else d

/-- `_computeDisruption(clashEvents, oh, dayStemIdx)`: fold the per-event
disruptions, absorb 25% more for a strong day master, then cap at 4%. -/
def computeDisruption (events : List ClashEvent) (oh : El → ℚ) (dayStemIdx : Fin 10) : ℚ :=
  let raw := events.foldl (fun acc c => acc + clashEventDisruption oh c) 0
  let raw :=
    if 1/4 < oh (cheonganOheng dayStemIdx) / ohTotalOr1 oh then raw * (1 - eokbuAbsorb) else raw
  min raw disruptionCap

/-- One event's penalty as the spec phrases it: 0.012 times the event
weight, times 1/4 when the bridging element exceeds a 10% share, times
1/2 for earth-vs-earth. -/
def disruptionSpecEvent (oh : El → ℚ) (c : ClashEvent) : ℚ :=
  clashBaseDisruption * c.weight *
    (match tonggwanMap c.elA c.elB with
      | some bridge => if 1/10 < oh bridge / ohTotalOr1 oh then (1/4 : ℚ) else 1
      | none => 1) *
    (if c.elA = .to ∧ c.elB = .to then 1/2 else 1)

/-- The final penalty as the spec phrases it: the summed per-event
penalties, reduced a further 25% when the day-master element exceeds a
25% share, capped at 0.04. -/
def disruptionSpec (events : List ClashEvent) (oh : El → ℚ) (dayStemIdx : Fin 10) : ℚ :=
  min ((if 1/4 < oh (cheonganOheng dayStemIdx) / ohTotalOr1 oh then (3/4 : ℚ) else 1) *
    (events.map (disruptionSpecEvent oh)).sum) disruptionCap

/-- JavaScript `Math.round` on the nonnegative rationals that arise here:
round half away from zero, i.e. `⌊x + 1/2⌋` (stated via the executable
`Rat.floor`; see `jsRound_eq_floor` below). -/
def jsRound (q : ℚ) : ℤ := (q + 1/2).floor

/-- Step 3 output normalization: each element total as a percentage of
the (`|| 1`-guarded) sum, rounded to one decimal
(`Math.round(oh[e] / ohTotal * 1000) / 10`). -/
def percentsOf (oh : El → ℚ) : El → ℚ :=
  fun e => (jsRound (oh e / ohTotalOr1 oh * 1000) : ℚ) / 10

/-- The ten proper ten-god keys, in the `sip` object's order. -/
def tenGodKeys : List TenGod :=
  [.bigyeon, .gyeopjae, .siksin, .sanggwan, .pyeonjae,
   .jeongjae, .pyeongwan, .jeonggwan, .pyeonin, .jeongin]

/-- `addSipsung(si, w)`: classify against the day stem and accumulate;
nonpositive weights are skipped, and the `'?'` fallback is not a key of
the accumulator (`sip.hasOwnProperty(tg)`), so it accumulates nowhere. -/
def sipAdd (ds : Fin 10) (sip : TenGod → ℚ) (si : Fin 10) (w : ℚ) : TenGod → ℚ :=
  if w ≤ 0 then sip
  else
    let tg := getTenGod ds si
    if tg = .unknown then sip
    else fun x => if x = tg then sip x + w else sip x

/-- Step 4: weighted ten-god accumulation over all active positions. -/
def accumSipsung (st : PState) (allPos : List Pos) (ds : Fin 10) : TenGod → ℚ :=
  let sip0 : TenGod → ℚ := fun _ => 0
  let sip1 := allPos.foldl (fun acc p =>
    let s := st.sd p
    s.tr.foldl (fun acc t => sipAdd ds acc (el2si t.1 (cheonganEumyang s.si)) (s.w * t.2))
      (sipAdd ds acc s.si (s.w * s.of))) sip0
  allPos.foldl (fun acc p =>
    let b := st.bd p
    b.tr.foldl (fun acc t => sipAdd ds acc (el2si t.1 b.yy) (b.w * t.2))
      (b.dist.foldl (fun acc d => sipAdd ds acc (el2si d.1 b.yy) (b.w * d.2 * b.of)) acc)) sip1

/-- Ten-god percentages (Step 4 normalization). -/
def sipPercentsOf (sip : TenGod → ℚ) : TenGod → ℚ :=
  let total := if (tenGodKeys.map sip).sum = 0 then 1 else (tenGodKeys.map sip).sum
  fun k => (jsRound (sip k / total * 1000) : ℚ) / 10

/-- `computeProfile`'s output record (the grouped ten-god view, a pure
regrouping of `sipPercent` for display, is omitted). -/
structure ProfileResult where
  ohRaw : El → ℚ
  ohPercent : El → ℚ
  sipRaw : TenGod → ℚ
  sipPercent : TenGod → ℚ
  interactions : List Interaction
  clashEvents : List ClashEvent
  total : ℚ

/-- State after Step 2-1 (natal-internal pairs), from an initial state. -/
def natalStateC (st0 : PState) (hasTime : Bool) : PState :=
  (List.zip (natalPositions hasTime) (natalPositions hasTime).tail).foldl
    natalPairStep st0

/-- State after Step 2-2 (overlay vs natal pairs), from an initial state. -/
def fortuneStateC (st0 : PState) (hasTime : Bool) (f : FortunePillars) : PState :=
  (fortunePositions f).foldl (fun st fp =>
    (natalPositions hasTime).foldl (fun st np => fortunePairStep st fp np) st)
    (natalStateC st0 hasTime)

/-- State after Step 2-3 (triads), from an initial state. -/
def tripleStateC (st0 : PState) (hasTime : Bool) (f : FortunePillars) : PState :=
  applyTripleCombine (fortuneStateC st0 hasTime f)
    (natalPositions hasTime ++ fortunePositions f) (fortunePositions f)

/-- Element totals before the clash-disruption pass, from an initial
state. -/
def ohBeforeC (st0 : PState) (hasTime : Bool) (f : FortunePillars) : El → ℚ :=
  accumOheng (tripleStateC st0 hasTime f) (natalPositions hasTime ++ fortunePositions f)

/-- The uniform penalty actually applied in Step 3.5: zero when there
are no clash events or the computed disruption is not positive,
otherwise the `_computeDisruption` value. -/
def effectivePenaltyC (st0 : PState) (hasTime : Bool) (f : FortunePillars) (ds : Fin 10) : ℚ :=
  if (tripleStateC st0 hasTime f).clashEvents = [] then 0
  else
    let p := computeDisruption (tripleStateC st0 hasTime f).clashEvents
      (ohBeforeC st0 hasTime f) ds
    if 0 < p then p else 0

/-- Element totals after the clash-disruption pass, from an initial
state. -/
def ohAfterC (st0 : PState) (hasTime : Bool) (f : FortunePillars) (ds : Fin 10) : El → ℚ :=
  fun e => ohBeforeC st0 hasTime f e * (1 - effectivePenaltyC st0 hasTime f ds)

/-- The whole computation from a Step-1 state and a day-stem index. -/
def computeProfileCore (st0 : PState) (hasTime : Bool) (f : FortunePillars)
    (ds : Fin 10) : ProfileResult :=
  let st := tripleStateC st0 hasTime f
  let allPos := natalPositions hasTime ++ fortunePositions f
  let oh := ohAfterC st0 hasTime f ds
  let sip := accumSipsung st allPos ds
  { ohRaw := oh
    ohPercent := percentsOf oh
    sipRaw := sip
    sipPercent := sipPercentsOf sip
    interactions := st.interactions
    clashEvents := st.clashEvents
    total := ohTotalOr1 oh }

/-- `computeProfile(natalDiscrete, hasTime, fortunePillars)` for the
discrete (`natalAngles = null`) path. -/
def computeProfile (n : NatalIdxs) (hasTime : Bool) (f : FortunePillars) : ProfileResult :=
  computeProfileCore (initState n hasTime f) hasTime f (stemOf n.day)

/-- State after Step 2-1 on a natal input. -/
def natalState (n : NatalIdxs) (hasTime : Bool) (f : FortunePillars) : PState :=
  natalStateC (initState n hasTime f) hasTime

/-- Element totals of a natal input before the clash-disruption pass. -/
def ohBefore (n : NatalIdxs) (hasTime : Bool) (f : FortunePillars) : El → ℚ :=
  ohBeforeC (initState n hasTime f) hasTime f

/-- The applied uniform penalty of a natal input. -/
def effectivePenalty (n : NatalIdxs) (hasTime : Bool) (f : FortunePillars) : ℚ :=
  effectivePenaltyC (initState n hasTime f) hasTime f (stemOf n.day)

/-! ## Sexagenary calendar (`SajuCalculator.calculate`)

JavaScript `%` on integers is truncated remainder, `Int.tmod`; the
source normalizes with the `((x % 60) + 60) % 60` idiom.  Dates built
with `new Date(y, m-1, d)` at midnight local time differ by an exact
multiple of 86 400 000 ms (KST has no daylight saving), so the
`Math.round((a - b) / 86400000)` day difference is the difference of
civil day numbers; `daysFromCivil` is that day-number map. -/

/-- Proleptic-Gregorian day number of a civil date (days since the civil
epoch 1970-01-01), modelling the JS `Date` timestamp divided by one day.
All intermediate divisions act on nonnegative operands. -/
def daysFromCivil (y m d : ℤ) : ℤ :=
  let y2 := if m ≤ 2 then y - 1 else y
  let era := (if 0 ≤ y2 then y2 else y2 - 399).ediv 400
  let yoe := y2 - era * 400
  let mp := (m + 9).emod 12
  let doy := (153 * mp + 2).ediv 5 + d - 1
  let doe := yoe * 365 + yoe.ediv 4 - yoe.ediv 100 + doy
  era * 146097 + doe - 719468

/-- The day number of the pillar-defining date: the civil birth date,
advanced one day when `hour >= 23` (자시 rollover). -/
def sajuDayNumber (y m d hour : ℤ) : ℤ :=
  daysFromCivil y m d + (if 23 ≤ hour then 1 else 0)

/-- Day-pillar 60-cycle index:
`((REF_DAY_IDX + dayDiff) % 60 + 60) % 60` with
`dayDiff = sajuDayNumber - dayNumber(REF_DATE)`.  The reference constants
live in the absent `constants.js` and are taken as parameters; `minute`
is accepted (the source signature carries it) and unused. -/
def dayPillarIdx (refDayIdx refDayNum y m d hour minute : ℤ) : ℤ :=
  ((refDayIdx + (sajuDayNumber y m d hour - refDayNum)).tmod 60 + 60).tmod 60

/-- The sexagenary year:
`birthKST < ipchunThis ? year - 1 : year`, where `ipchunThis` is the
instant of the start-of-spring term `findSolarTerm(year, '입춘', 315)`
(instants modelled as rational timestamps). -/
def sajuYearOf (birthMs ipchunMs : ℚ) (year : ℤ) : ℤ :=
  if birthMs < ipchunMs then year - 1 else year

/-- Year-pillar 60-cycle index:
`((REF_YEAR_IDX + (sajuYear - REF_YEAR)) % 60 + 60) % 60`, reference
constants as parameters. -/
def yearPillarIdx (refYearIdx refYear sajuYear : ℤ) : ℤ :=
  ((refYearIdx + (sajuYear - refYear)).tmod 60 + 60).tmod 60

/-! ## Solar-term solver (`findSolarTerm`)

The solver is embedded over `ℝ`, parameterized by the sun-longitude
function; `sunLongitude` itself is transcribed below and plugged in.
JavaScript `%` on reals is truncated-division remainder (`jsMod`).
The result refined by the bisection is returned as a real-valued Julian
day; the source's final `jdToKST` calendar conversion of that instant is
not modelled.  The approximate start day `j0` (derived in the source
from `TERM_MONTH` and `julianDay`) is a parameter. -/

/-- Truncation toward zero of a real (JS implicit `trunc` in `%`). -/
noncomputable def jsTrunc (x : ℝ) : ℤ :=
  if 0 ≤ x then ⌊x⌋ else -⌊-x⌋

/-- JavaScript `%` on reals: `a - b * trunc(a / b)`. -/
noncomputable def jsMod (a b : ℝ) : ℝ :=
  a - b * jsTrunc (a / b)

open Real in
/-- `AstronomyUtils.sunLongitude(jd)`: truncated solar-longitude series
(mean longitude plus equation-of-center terms, nutation correction),
normalized to `[0, 360)`. -/
noncomputable def sunLongitude (jd : ℝ) : ℝ :=
  let T := (jd - 2451545) / 36525
  let L0 := jsMod (280.46646 + T * (36000.76983 + T * 0.0003032)) 360
  let L0 := if L0 < 0 then L0 + 360 else L0
  let M := jsMod (357.52911 + T * (35999.05029 - T * 0.0001537)) 360
  let Mr := M * π / 180
  let C := (1.914602 - T * (0.004817 + T * 0.000014)) * Real.sin Mr +
    (0.019993 - T * 0.000101) * Real.sin (2 * Mr) +
    0.000289 * Real.sin (3 * Mr)
  let om := 125.04 - 1934.136 * T
  jsMod (jsMod (L0 + C - 0.00569 - 0.00478 * Real.sin (om * π / 180)) 360 + 360) 360

/-- Offset of the sun's longitude from the target at Julian day `j`:
`((sun(j) - target) % 360 + 360) % 360`. -/
noncomputable def offsetJD (sun : ℝ → ℝ) (target j : ℝ) : ℝ :=
  jsMod (jsMod (sun j - target) 360 + 360) 360

/-- The offset at the `i`-th day-step of the scan. -/
noncomputable def dayOffset (sun : ℝ → ℝ) (target j0 : ℝ) (i : ℕ) : ℝ :=
  offsetJD sun target (j0 + i)

/-- The wraparound-crossing test at scan step `i ≥ 1`: the previous
sample's offset exceeds 300° and the current one is below 60°. -/
def detectsCross (sun : ℝ → ℝ) (target j0 : ℝ) (i : ℕ) : Prop :=
  300 < dayOffset sun target j0 (i - 1) ∧ dayOffset sun target j0 i < 60

open Classical in
/-- The day-by-day scan from step `i`: at most 50 day samples are taken
(`for (let i = 0; i < 50; i++)`), the first step whose crossing test
fires is returned; detection needs a previous sample, so testing starts
at step 1. -/
noncomputable def scanGo (sun : ℝ → ℝ) (target j0 : ℝ) (i : ℕ) : Option ℕ :=
  if h : 50 ≤ i then none
  else if detectsCross sun target j0 i then some i
  else scanGo sun target j0 (i + 1)
termination_by 50 - i
decreasing_by omega

/-- The bounded linear scan of `findSolarTerm`. -/
noncomputable def termScan (sun : ℝ → ℝ) (target j0 : ℝ) : Option ℕ :=
  scanGo sun target j0 1

open Classical in
/-- One bisection step on the bracketing interval:
move `a` up to the midpoint when the midpoint's offset still exceeds
180°, otherwise move `b` down. -/
noncomputable def bisectStep (sun : ℝ → ℝ) (target : ℝ) (p : ℝ × ℝ) : ℝ × ℝ :=
  let m := (p.1 + p.2) / 2
  if 180 < offsetJD sun target m then (m, p.2) else (p.1, m)

/-- The refinement of the crossing instant: 52 bisection iterations
(`for (let k = 0; k < 52; k++)`) starting from `(j - 1, j)`, returning
the final midpoint. -/
noncomputable def refineCross (sun : ℝ → ℝ) (target a b : ℝ) : ℝ :=
  let p := (bisectStep sun target)^[52] (a, b)
  (p.1 + p.2) / 2

/-- The structured error thrown on scan exhaustion:
`createError(ErrorCodes.TERM_NOT_FOUND, { termName, year })`, with the
term name modelled as a numeric identifier. -/
inductive SajuErr
  | termNotFound (year : ℤ) (termId : ℕ)
  deriving DecidableEq

/-- The uncached computation of `findSolarTerm`: scan, then refine, or
throw the structured term-not-found error when the 50-day scan finds no
crossing. -/
noncomputable def findSolarTermCompute (sun : ℝ → ℝ) (year : ℤ) (termId : ℕ)
    (target j0 : ℝ) : Except SajuErr ℝ :=
  match termScan sun target j0 with
  | some i => .ok (refineCross sun target (j0 + i - 1) (j0 + i))
  | none => .error (.termNotFound year termId)

/-- The memoization cache (`TermCache`), keyed by `(year, termName)`. -/
def TermCacheT : Type := List ((ℤ × ℕ) × ℝ)

/-- `findSolarTerm` with its cache: a cache hit returns the stored
instant unchanged; otherwise the computation runs and a successful
result is stored (a thrown error is not cached). -/
noncomputable def findSolarTermMemo (sun : ℝ → ℝ) (year : ℤ) (termId : ℕ)
    (target j0 : ℝ) (cache : TermCacheT) : Except SajuErr ℝ × TermCacheT :=
  match List.lookup (year, termId) cache with
  | some v => (.ok v, cache)
  | none =>
    match findSolarTermCompute sun year termId target j0 with
    | .ok r => (.ok r, ((year, termId), r) :: cache)
    | .error e => (.error e, cache)

/-- `findSolarTerm` instantiated with the transcribed `sunLongitude`. -/
noncomputable def findSolarTerm (year : ℤ) (termId : ℕ) (target j0 : ℝ)
    (cache : TermCacheT) : Except SajuErr ℝ × TermCacheT :=
  findSolarTermMemo sunLongitude year termId target j0 cache

/-! ## Continuous five-element engine (`trig-engine.js`) -/

/-- `toRad(deg) = deg * (Math.PI / 180)`. -/
noncomputable def toRad (deg : ℝ) : ℝ := deg * (Real.pi / 180)

/-- `BASE_WATER`: the 수(水) ratios at the 12 branch centers — the 수
column of the ratio table. -/
noncomputable def baseWater (k : Fin 12) : ℝ :=
  ((branchOhengRatiosQ k .su : ℚ) : ℝ)

open Real in
/-- The DFT cosine coefficients `_FA[n]` after the DC/Nyquist halving:
`(2/12) * Σ_k BASE_WATER[k] cos(2πnk/12)` for `n = 1..5`, and the halved
`(1/12) * Σ` for `n = 0` and `n = 6`. -/
noncomputable def fourierCoefA (n : ℕ) : ℝ :=
  if n = 0 ∨ n = 6 then
    (∑ k : Fin 12, baseWater k * Real.cos (2 * π * n * k / 12)) / 12
  else
    (2 / 12) * ∑ k : Fin 12, baseWater k * Real.cos (2 * π * n * k / 12)

open Real in
/-- The DFT sine coefficients `_FB[n] = (2/12) * Σ_k BASE_WATER[k] sin(2πnk/12)`. -/
noncomputable def fourierCoefB (n : ℕ) : ℝ :=
  (2 / 12) * ∑ k : Fin 12, baseWater k * Real.sin (2 * π * n * k / 12)

/-- `fourierBase(rad)`: the single trigonometric expression
`a₀ + Σ_{n=1}^{5} (aₙ cos(n·rad) + bₙ sin(n·rad)) + a₆ cos(6·rad)`. -/
noncomputable def fourierBase (rad : ℝ) : ℝ :=
  fourierCoefA 0 +
    (∑ n ∈ Finset.range 5,
      (fourierCoefA (n + 1) * Real.cos ((n + 1) * rad) +
        fourierCoefB (n + 1) * Real.sin ((n + 1) * rad))) +
    fourierCoefA 6 * Real.cos (6 * rad)

open Real in
/-- `ohengStrengthAtAngle(theta)`: the four seasonal elements are the
base function rotated by 0°, 90°, 180°, 270°; negative Gibbs undershoot
is clamped to 0; earth is the clamped complement; the five values are
renormalized (equal fifths if the total degenerates to 0). -/
noncomputable def ohengStrengthAtAngle (theta : ℝ) : El → ℝ :=
  let rad := toRad theta
  let su := max (fourierBase rad) 0
  let mok := max (fourierBase (rad - π / 2)) 0
  let hwa := max (fourierBase (rad - π)) 0
  let geum := max (fourierBase (rad - 3 * (π / 2))) 0
  let toE := max (1 - su - mok - hwa - geum) 0
  let total := mok + hwa + toE + geum + su
  if 0 < total then
    fun e => (match e with
      | .mok => mok
      | .hwa => hwa
      | .to => toE
      | .geum => geum
      | .su => su) / total
  else fun _ => 1 / 5

/-- The static ratio table over `ℝ` (`BRANCH_OHENG_RATIOS`). -/
noncomputable def branchOhengRatiosR (k : Fin 12) (e : El) : ℝ :=
  ((branchOhengRatiosQ k e : ℚ) : ℝ)

/-- The branch index congruent to an integer mod 12. -/
def finOfMod12 (j : ℤ) : Fin 12 :=
  ⟨(j % 12).toNat, by omega⟩

/-- Whether an interaction entry is a stem relation (combine or clash)
recorded between an overlay source position in `fps` and the natal
target `np`. -/
def Interaction.isOverlayStemWith (i : Interaction) (fps : List Pos) (np : Pos) : Bool :=
  match i with
  | .stemComb s t => fps.contains s && t == np
  | .stemClash s t => fps.contains s && t == np
  | _ => false

/-- Whether an interaction entry is a branch relation (six-combine,
clash, or half-combine) recorded between an overlay source in `fps` and
the natal target `np`. -/
def Interaction.isOverlayBranchWith (i : Interaction) (fps : List Pos) (np : Pos) : Bool :=
  match i with
  | .branchComb s t => fps.contains s && t == np
  | .branchClash s t => fps.contains s && t == np
  | .banhap s t => fps.contains s && t == np
  | _ => false

/-! ## Shared lemmas -/

/-- The JS normalization idiom `((x % 60) + 60) % 60` (with `%` the JS
truncated remainder, `Int.tmod`) computes the Euclidean residue mod 60. -/
theorem tmodAddSixty (x : ℤ) : (x.tmod 60 + 60).tmod 60 = x % 60 := by
  have hd : x.tmod 60 = x - 60 * x.tdiv 60 := Int.tmod_def x 60
  have hub : x.tmod 60 < 60 := Int.tmod_lt_of_pos x (by norm_num)
  have hneg : (-x).tmod 60 = -(x.tmod 60) := by
    rw [Int.tmod_def, Int.tmod_def, Int.neg_tdiv]; ring
  have hub2 : (-x).tmod 60 < 60 := Int.tmod_lt_of_pos (-x) (by norm_num)
  have hlb : -60 < x.tmod 60 := by omega
  rw [Int.tmod_eq_emod (by omega) (by norm_num)]
  omega

/-! ## C10 — ten-god totality -/

/-- C10: for every pair of stem indices in `[0,10)`,
`SajuCalculator.getTenGod` returns one of the ten ten-god labels; the
`'?'` fallback branch is unreachable, because any two of the five
elements are related by exactly one of same/generates/overcomes/
generated-by/overcome-by under the cycle tables. -/
theorem getTenGodTotal : ∀ dayStemIdx targetStemIdx : Fin 10,
    getTenGod dayStemIdx targetStemIdx ≠ .unknown := by
  decide

/-! ## C3 — resistance multiplier -/

/-- C3 counterexample: the claim asserts that adjacent month–year
interactions carry no 0.5 resistance, but
`resFactor('month','year','month')` is 0.5, not 1. -/
theorem resFactorMonthYearHalf :
    resFactor .month .year .month = 1/2 ∧ ¬ resFactor .month .year .month = 1 := by
  constructor
  · with_unfolding_all rfl
  · with_unfolding_all decide

/-- C3 amended: the multiplier is 0.5 exactly for (hour,day) toward day,
for (day,month) toward either pillar, and for (month,year) toward month;
it is 1 for every other (pair, target) combination. -/
theorem resFactorCharacterization : ∀ p1 p2 target : Pos,
    resFactor p1 p2 target =
      if (p1 = .hour ∧ p2 = .day ∧ target = .day) ∨ (p1 = .day ∧ p2 = .month)
        ∨ (p1 = .month ∧ p2 = .year ∧ target = .month) then 1/2 else 1 := by
  with_unfolding_all decide

/-! ## C6 — sexagenary year -/

/-- C6: the sexagenary year is the civil year when the birth instant is
at or after that year's start-of-spring instant and the prior civil year
when strictly before it, and the year-pillar index is the reference
index offset by `sajuYear - REF_YEAR`, modulo 60 (for any reference
constants). -/
theorem yearPillarCorrect : ∀ (birthMs ipchunMs : ℚ) (year refYearIdx refYear : ℤ),
    (birthMs < ipchunMs → sajuYearOf birthMs ipchunMs year = year - 1) ∧
    (ipchunMs ≤ birthMs → sajuYearOf birthMs ipchunMs year = year) ∧
    yearPillarIdx refYearIdx refYear (sajuYearOf birthMs ipchunMs year)
      = (refYearIdx + (sajuYearOf birthMs ipchunMs year - refYear)) % 60 := by
  intro birthMs ipchunMs year refYearIdx refYear
  refine ⟨fun h => ?_, fun h => ?_, ?_⟩
  · simp [sajuYearOf, h]
  · simp [sajuYearOf, not_lt.mpr h]
  · exact tmodAddSixty _

/-- C6 witness: a birth strictly before the start-of-spring instant
belongs to the prior year, and the index arithmetic matches. -/
theorem yearPillarCorrectWitness :
    sajuYearOf 5 7 2000 = 1999 ∧
    yearPillarIdx 36 1996 (sajuYearOf 5 7 2000) = (36 + (1999 - 1996)) % 60 := by
  refine ⟨(yearPillarCorrect 5 7 2000 36 1996).1 (by norm_num), ?_⟩
  have h := (yearPillarCorrect 5 7 2000 36 1996).2.2
  have h1 : sajuYearOf 5 7 2000 = 1999 :=
    (yearPillarCorrect 5 7 2000 36 1996).1 (by norm_num)
  rw [h, h1]

/-! ## C7 — day pillar -/

/-- C7: the day pillar depends only on the civil day number plus the
23:00 rollover flag, equals the linear reference offset reduced to the
Euclidean residue mod 60, and is 60-periodic in the day number: a date
whose day number is 60 larger yields the same index. -/
theorem dayPillarCorrect :
    ∀ refDayIdx refDayNum y m d hour minute y2 m2 d2 hour2 minute2 : ℤ,
    (daysFromCivil y2 m2 d2 = daysFromCivil y m d → ((23 ≤ hour2) ↔ (23 ≤ hour)) →
      dayPillarIdx refDayIdx refDayNum y2 m2 d2 hour2 minute2
        = dayPillarIdx refDayIdx refDayNum y m d hour minute) ∧
    (dayPillarIdx refDayIdx refDayNum y m d hour minute
        = (refDayIdx + (sajuDayNumber y m d hour - refDayNum)) % 60) ∧
    (daysFromCivil y2 m2 d2 = daysFromCivil y m d + 60 →
      dayPillarIdx refDayIdx refDayNum y2 m2 d2 hour minute2
        = dayPillarIdx refDayIdx refDayNum y m d hour minute) := by
  intro refDayIdx refDayNum y m d hour minute y2 m2 d2 hour2 minute2
  refine ⟨fun hdv hroll => ?_, tmodAddSixty _, fun hdv => ?_⟩
  · unfold dayPillarIdx sajuDayNumber
    rw [hdv]
    rcases Classical.em (23 ≤ hour) with h | h
    · rw [if_pos h, if_pos (hroll.mpr h)]
    · rw [if_neg h, if_neg (fun hc => h (hroll.mp hc))]
  · unfold dayPillarIdx sajuDayNumber
    rw [tmodAddSixty, tmodAddSixty, hdv]
    omega

/-- C7 witness: 2020-03-01 is 60 days after 2020-01-01 and gets the same
day pillar; the rollover equivalence instance is discharged at equal
hours. -/
theorem dayPillarCorrectWitness :
    dayPillarIdx 3 10957 2020 3 1 14 30 = dayPillarIdx 3 10957 2020 1 1 14 0 ∧
    dayPillarIdx 3 10957 2020 1 1 14 0
      = (3 + (sajuDayNumber 2020 1 1 14 - 10957)) % 60 := by
  constructor
  · exact (dayPillarCorrect 3 10957 2020 1 1 14 0 2020 3 1 14 30).2.2 (by decide)
  · exact (dayPillarCorrect 3 10957 2020 1 1 14 0 2020 3 1 14 30).2.1

/-- A left fold that adds a per-item value is the sum of the mapped
values. -/
theorem foldlAddOf {α : Type} (step : ℚ → α → ℚ) (g : α → ℚ)
    (h : ∀ acc c, step acc c = acc + g c) :
    ∀ (l : List α) (acc : ℚ), l.foldl step acc = acc + (l.map g).sum := by
  intro l
  induction l with
  | nil => intro acc; simp
  | cons x xs ih => intro acc; simp only [List.foldl_cons, List.map_cons, List.sum_cons, h, ih,
      add_assoc]

/-- `_computeDisruption` never exceeds the 4% cap. -/
theorem computeDisruptionLeCap (events : List ClashEvent) (oh : El → ℚ) (ds : Fin 10) :
    computeDisruption events oh ds ≤ disruptionCap := by
  unfold computeDisruption
  exact min_le_right _ _

/-- The source's per-event loop body equals the spec's per-event
penalty formula. -/
theorem clashEventDisruptionEq (oh : El → ℚ) (c : ClashEvent) :
    clashEventDisruption oh c = disruptionSpecEvent oh c := by
  simp only [clashEventDisruption, disruptionSpecEvent, tonggwanAbsorb]
  rcases htm : tonggwanMap c.elA c.elB with _ | bridge <;> simp only [htm] <;>
    split_ifs <;> ring

/-! ## C2 — clash disruption, collect-then-apply -/

/-- C2: clash handling is collect-then-apply.  `_computeDisruption`
equals the spec's closed formula — 0.012 per unit of event weight,
reduced 75% when the bridging element holds more than 10% of the
profile, halved for earth-vs-earth, the sum reduced a further 25% when
the day-master element holds more than 25%, capped at 0.04 — and, on
every `computeProfile` run, the applied penalty is a single uniform
factor on all five element totals, nonnegative and at most 0.04. -/
theorem clashDisruptionCorrect :
    (∀ (events : List ClashEvent) (oh : El → ℚ) (ds : Fin 10),
      computeDisruption events oh ds = disruptionSpec events oh ds ∧
      computeDisruption events oh ds ≤ disruptionCap) ∧
    (∀ (n : NatalIdxs) (hasTime : Bool) (f : FortunePillars),
      0 ≤ effectivePenalty n hasTime f ∧
      effectivePenalty n hasTime f ≤ disruptionCap ∧
      ∀ e, (computeProfile n hasTime f).ohRaw e
        = ohBefore n hasTime f e * (1 - effectivePenalty n hasTime f)) := by
  constructor
  · intro events oh ds
    constructor
    · simp only [computeDisruption, disruptionSpec]
      rw [foldlAddOf (fun acc c => acc + clashEventDisruption oh c) (disruptionSpecEvent oh)
        (fun acc c => by simp only [clashEventDisruptionEq]) events 0]
      rw [zero_add]
      split_ifs with hday
      · congr 1; rw [eokbuAbsorb]; ring
      · congr 1; ring
    · exact computeDisruptionLeCap events oh ds
  · intro n hasTime f
    refine ⟨?_, ?_, fun e => rfl⟩
    · simp only [effectivePenalty, effectivePenaltyC]
      split_ifs with h1 h2
      · exact le_refl 0
      · exact le_of_lt h2
      · exact le_refl 0
    · simp only [effectivePenalty, effectivePenaltyC]
      split_ifs with h1 h2
      · rw [disruptionCap]; norm_num
      · exact computeDisruptionLeCap _ _ _
      · rw [disruptionCap]; norm_num

/-! ## C9 — no-birth-time charts omit the hour pillar -/

/-- C9: with `hasTime = false` the computation runs over day, month,
year only — the hour position appears in no active position list (so it
joins no accumulation and no pair detection), and the entire output is
independent of the hour pillar of the input (nothing is default-filled
from it). -/
theorem noTimeOmitsHour : ∀ (n1 n2 : NatalIdxs) (f : FortunePillars),
    (Pos.hour ∉ natalPositions false ++ fortunePositions f) ∧
    (n1.day = n2.day → n1.month = n2.month → n1.year = n2.year →
      computeProfile n1 false f = computeProfile n2 false f) := by
  intro n1 n2 f
  constructor
  · intro hmem
    rcases List.mem_append.mp hmem with h | h
    · simp [natalPositions] at h
    · have := List.mem_filter.mp h
      simp at this
  · intro hd hm hy
    have hinit : initState n1 false f = initState n2 false f := by
      unfold initState
      refine congrArg₂ (fun s b => PState.mk s b [] [] [] []) ?_ ?_ <;>
        funext p <;> cases p <;>
        simp [natalPositions, natalIdx, hd, hm, hy]
    have hds : stemOf n1.day = stemOf n2.day := by rw [hd]
    unfold computeProfile
    rw [hinit, hds]

/-- C9 witness: two inputs that differ only in the hour pillar give
identical profiles when `hasTime = false`. -/
theorem noTimeOmitsHourWitness :
    computeProfile ⟨0, 26, 37, 17⟩ false noFortune
      = computeProfile ⟨59, 26, 37, 17⟩ false noFortune :=
  (noTimeOmitsHour ⟨0, 26, 37, 17⟩ ⟨59, 26, 37, 17⟩ noFortune).2 rfl rfl rfl

/-- `jsRound` is the floor of `q + 1/2`. -/
theorem jsRoundEq (q : ℚ) : jsRound q = ⌊q + 1/2⌋ := by
  rw [jsRound, Rat.floor_def' (q + 1/2), ← Rat.floor_def]

/-! ## C8 — rounded percentages sum -/

set_option maxRecDepth 8000 in
/-- C8 counterexample: the natal chart with pillar indices day 26,
month 37, year 17 (no birth time, no overlay pillars) produces rounded
percentages 15.0, 16.3, 31.3, 26.3, 11.3 summing to 100.2, which is
outside 100 ± 0.1. -/
theorem ohPercentSumFar :
    (ohengKeys.map (computeProfile ⟨0, 26, 37, 17⟩ false noFortune).ohPercent).sum = 501/5 ∧
    (100 + 1/10 : ℚ) < 501/5 := by
  constructor
  · with_unfolding_all decide
  · norm_num

/-- C8 amended: for any nonnegative element totals with positive sum —
in particular every `computeProfile` run — the five individually rounded
percentages sum to 100 ± 0.25 (more precisely, the sum lies in
(99.75, 100.25]). -/
theorem ohPercentSumBounds (oh : El → ℚ) (hnn : ∀ e, 0 ≤ oh e) (hpos : 0 < ohSum oh) :
    (399/4 : ℚ) < (ohengKeys.map (percentsOf oh)).sum ∧
    (ohengKeys.map (percentsOf oh)).sum ≤ 401/4 := by
  have hT : ohTotalOr1 oh = ohSum oh := by
    rw [ohTotalOr1, if_neg (ne_of_gt hpos)]
  have hb : ∀ e : El,
      oh e / ohSum oh * 1000 - 1/2 < (jsRound (oh e / ohSum oh * 1000) : ℚ) ∧
      (jsRound (oh e / ohSum oh * 1000) : ℚ) ≤ oh e / ohSum oh * 1000 + 1/2 := by
    intro e
    rw [jsRoundEq]
    constructor
    · have h := Int.sub_one_lt_floor (oh e / ohSum oh * 1000 + 1/2)
      linarith
    · have h := Int.floor_le (oh e / ohSum oh * 1000 + 1/2)
      linarith
  have hexp : ohSum oh = oh .mok + oh .hwa + oh .to + oh .geum + oh .su := by
    simp [ohSum, ohengKeys]; ring
  have hsum : oh .mok / ohSum oh * 1000 + oh .hwa / ohSum oh * 1000 +
      oh .to / ohSum oh * 1000 + oh .geum / ohSum oh * 1000 +
      oh .su / ohSum oh * 1000 = 1000 := by
    have hne : ohSum oh ≠ 0 := ne_of_gt hpos
    field_simp
    linarith
  simp only [percentsOf, hT, ohengKeys, List.map_cons, List.map_nil, List.sum_cons,
    List.sum_nil, add_zero]
  constructor
  · linarith [(hb .mok).1, (hb .hwa).1, (hb .to).1, (hb .geum).1, (hb .su).1]
  · linarith [(hb .mok).2, (hb .hwa).2, (hb .to).2, (hb .geum).2, (hb .su).2]

/-- C8 amended witness: the uniform profile sums to exactly 100, inside
the proven bounds. -/
theorem ohPercentSumBoundsWitness :
    (∀ e : El, (0:ℚ) ≤ 1) ∧ (0:ℚ) < ohSum (fun _ => 1) ∧
    (399/4 : ℚ) < (ohengKeys.map (percentsOf fun _ => 1)).sum ∧
    (ohengKeys.map (percentsOf fun _ => 1)).sum ≤ 401/4 := by
  have h1 : ∀ e : El, (0:ℚ) ≤ (fun _ => (1:ℚ)) e := fun _ => by norm_num
  have h2 : (0:ℚ) < ohSum (fun _ => 1) := by
    norm_num [ohSum, ohengKeys]
  exact ⟨fun _ => by norm_num, h2,
    (ohPercentSumBounds (fun _ => 1) h1 h2).1, (ohPercentSumBounds (fun _ => 1) h1 h2).2⟩

/-! ## C4 — first-combine-wins also suppresses overlay clash detection -/

/-- `List.contains` agrees with membership for positions. -/
theorem containsTrueIff {l : List Pos} {p : Pos} : l.contains p = true ↔ p ∈ l := by
  simp [List.contains_iff_exists_mem_beq, beq_iff_eq]

/-- `List.contains` is false exactly off the list. -/
theorem containsFalseIff {l : List Pos} {p : Pos} : l.contains p = false ↔ p ∉ l := by
  rw [← containsTrueIff]
  cases h : l.contains p <;> simp

/-- Natal positions are never overlay positions. -/
theorem natalPosNotFortune (f : FortunePillars) (hasTime : Bool) (p : Pos)
    (hp : p ∈ natalPositions hasTime) : (fortunePositions f).contains p = false := by
  rw [containsFalseIff]
  intro hmem
  have h1 := (List.mem_filter.mp hmem).1
  cases hasTime <;> simp [natalPositions] at hp <;>
    rcases hp with rfl | rfl | rfl | rfl <;> simp at h1

/-- Folding steps that preserve a filtered interaction list preserve it
throughout. -/
theorem foldlFilterInv {β : Type} (step : PState → β → PState) (Q : Interaction → Bool)
    (h : ∀ st b, (step st b).interactions.filter Q = st.interactions.filter Q) :
    ∀ (l : List β) (st : PState),
      (l.foldl step st).interactions.filter Q = st.interactions.filter Q := by
  intro l
  induction l with
  | nil => intro st; rfl
  | cons x xs ih => intro st; rw [List.foldl_cons, ih, h]

/-- Conditional version: the preservation may rely on an invariant that
the steps maintain. -/
theorem foldlFilterInvCond {β : Type} (step : PState → β → PState) (Q : Interaction → Bool)
    (Inv : PState → Prop)
    (hinv : ∀ st b, Inv st → Inv (step st b))
    (h : ∀ st b, Inv st → (step st b).interactions.filter Q = st.interactions.filter Q) :
    ∀ (l : List β) (st : PState), Inv st →
      (l.foldl step st).interactions.filter Q = st.interactions.filter Q := by
  intro l
  induction l with
  | nil => intro st _; rfl
  | cons x xs ih => intro st hI; rw [List.foldl_cons, ih _ (hinv st x hI), h st x hI]

/-- Folding steps that keep both combined-position sets keeps them
throughout. -/
theorem foldlCombinedInv {β : Type} (step : PState → β → PState)
    (h : ∀ st b, (step st b).combinedStems = st.combinedStems ∧
      (step st b).combinedBranches = st.combinedBranches) :
    ∀ (l : List β) (st : PState),
      (l.foldl step st).combinedStems = st.combinedStems ∧
      (l.foldl step st).combinedBranches = st.combinedBranches := by
  intro l
  induction l with
  | nil => intro st; exact ⟨rfl, rfl⟩
  | cons x xs ih =>
    intro st
    rw [List.foldl_cons]
    exact ⟨((ih _).1).trans (h st x).1, ((ih _).2).trans (h st x).2⟩

/-- The natal stem-relation step only appends stem interactions between
its two pillars. -/
theorem natalStemRelFilter (Q : Interaction → Bool) (p1 p2 : Pos)
    (h1 : Q (.stemComb p1 p2) = false) (h2 : Q (.stemClash p1 p2) = false)
    (st : PState) (r : Rel) :
    (natalStemRel p1 p2 st r).interactions.filter Q = st.interactions.filter Q := by
  cases r <;> simp [natalStemRel, updSd, List.filter_append, h1, h2]

/-- The natal branch-relation step only appends branch interactions
between its two pillars. -/
theorem natalBranchRelFilter (Q : Interaction → Bool) (p1 p2 : Pos)
    (h1 : Q (.branchComb p1 p2) = false) (h2 : Q (.branchClash p1 p2) = false)
    (st : PState) (r : Rel) :
    (natalBranchRel p1 p2 st r).interactions.filter Q = st.interactions.filter Q := by
  cases r <;> simp [natalBranchRel, updBd, List.filter_append, h1, h2]

/-- The natal half-combine step only appends a half-combine interaction
between its two pillars. -/
theorem natalBanhapFilter (Q : Interaction → Bool) (p1 p2 : Pos)
    (h1 : Q (.banhap p1 p2) = false) (st : PState) :
    (natalBanhap st p1 p2).interactions.filter Q = st.interactions.filter Q := by
  unfold natalBanhap
  cases hel : banhapEl (st.bd p1).bi (st.bd p2).bi <;>
    simp [hel, updBd, List.filter_append, h1]

/-- One natal adjacent-pair step only appends interactions between its
two pillars. -/
theorem natalPairStepFilter (Q : Interaction → Bool) (p1 p2 : Pos)
    (hsc : Q (.stemComb p1 p2) = false) (hsx : Q (.stemClash p1 p2) = false)
    (hbc : Q (.branchComb p1 p2) = false) (hbx : Q (.branchClash p1 p2) = false)
    (hbh : Q (.banhap p1 p2) = false) (st : PState) :
    (natalPairStep st (p1, p2)).interactions.filter Q = st.interactions.filter Q := by
  unfold natalPairStep
  rw [natalBanhapFilter Q p1 p2 hbh,
    foldlFilterInv _ Q (natalBranchRelFilter Q p1 p2 hbc hbx),
    foldlFilterInv _ Q (natalStemRelFilter Q p1 p2 hsc hsx)]

/-- The overlay stem-relation step only appends stem interactions from
the overlay pillar to the natal pillar, and keeps the combined sets. -/
theorem fortuneStemRelFilter (Q : Interaction → Bool) (fp np : Pos) (iw : ℚ)
    (h1 : Q (.stemComb fp np) = false) (h2 : Q (.stemClash fp np) = false)
    (st : PState) (r : Rel) :
    (fortuneStemRel fp np iw st r).interactions.filter Q = st.interactions.filter Q := by
  cases r <;> simp [fortuneStemRel, updSd, List.filter_append, h1, h2]

/-- The overlay branch-relation step only appends branch interactions
from the overlay pillar to the natal pillar. -/
theorem fortuneBranchRelFilter (Q : Interaction → Bool) (fp np : Pos) (iw : ℚ)
    (h1 : Q (.branchComb fp np) = false) (h2 : Q (.branchClash fp np) = false)
    (st : PState) (r : Rel) :
    (fortuneBranchRel fp np iw st r).interactions.filter Q = st.interactions.filter Q := by
  cases r <;> simp [fortuneBranchRel, updBd, List.filter_append, h1, h2]

/-- The overlay half-combine step only appends a half-combine
interaction from the overlay pillar to the natal pillar. -/
theorem fortuneBanhapFilter (Q : Interaction → Bool) (fp np : Pos) (iw : ℚ)
    (h1 : Q (.banhap fp np) = false) (st : PState) :
    (fortuneBanhap st fp np iw).interactions.filter Q = st.interactions.filter Q := by
  unfold fortuneBanhap
  cases hel : banhapEl (st.bd fp).bi (st.bd np).bi <;>
    simp [hel, updBd, List.filter_append, h1]

/-- The overlay stem step keeps the combined sets. -/
theorem fortuneStemRelCombined (fp np : Pos) (iw : ℚ) (st : PState) (r : Rel) :
    (fortuneStemRel fp np iw st r).combinedStems = st.combinedStems ∧
    (fortuneStemRel fp np iw st r).combinedBranches = st.combinedBranches := by
  cases r <;> simp [fortuneStemRel, updSd]

/-- The overlay branch step keeps the combined sets. -/
theorem fortuneBranchRelCombined (fp np : Pos) (iw : ℚ) (st : PState) (r : Rel) :
    (fortuneBranchRel fp np iw st r).combinedStems = st.combinedStems ∧
    (fortuneBranchRel fp np iw st r).combinedBranches = st.combinedBranches := by
  cases r <;> simp [fortuneBranchRel, updBd]

/-- The overlay half-combine step keeps the combined sets. -/
theorem fortuneBanhapCombined (fp np : Pos) (iw : ℚ) (st : PState) :
    (fortuneBanhap st fp np iw).combinedStems = st.combinedStems ∧
    (fortuneBanhap st fp np iw).combinedBranches = st.combinedBranches := by
  unfold fortuneBanhap
  cases hel : banhapEl (st.bd fp).bi (st.bd np).bi <;> simp [hel, updBd]

/-- One overlay-vs-natal pair step keeps the combined sets. -/
theorem fortunePairStepCombined (st : PState) (fp np : Pos) :
    (fortunePairStep st fp np).combinedStems = st.combinedStems ∧
    (fortunePairStep st fp np).combinedBranches = st.combinedBranches := by
  simp only [fortunePairStep]
  split_ifs <;>
  · constructor <;>
      simp only [
        (fortuneBanhapCombined fp np _ _).1, (fortuneBanhapCombined fp np _ _).2,
        (foldlCombinedInv _ (fortuneBranchRelCombined fp np _) _ _).1,
        (foldlCombinedInv _ (fortuneBranchRelCombined fp np _) _ _).2,
        (foldlCombinedInv _ (fortuneStemRelCombined fp np _) _ _).1,
        (foldlCombinedInv _ (fortuneStemRelCombined fp np _) _ _).2]

/-- When the natal position `np` was stem-combined in the natal phase,
no overlay pair step records a stem interaction targeting `np`. -/
theorem fortunePairStepFilterStem (fps : List Pos) (np : Pos) (st : PState) (fp np2 : Pos)
    (hc : st.combinedStems.contains np = true) :
    (fortunePairStep st fp np2).interactions.filter
        (fun i => i.isOverlayStemWith fps np)
      = st.interactions.filter (fun i => i.isOverlayStemWith fps np) := by
  set Q : Interaction → Bool := fun i => i.isOverlayStemWith fps np with hQ
  have hbc : ∀ s t : Pos, Q (.branchComb s t) = false := fun s t => rfl
  have hbx : ∀ s t : Pos, Q (.branchClash s t) = false := fun s t => rfl
  have hbh : ∀ s t : Pos, Q (.banhap s t) = false := fun s t => rfl
  have hbranch : ∀ (st2 : PState),
      ((checkBranchPair (st2.bd fp).bi (st2.bd np2).bi).foldl
        (fortuneBranchRel fp np2 (fortuneInteractionW np2)) st2).interactions.filter Q
        = st2.interactions.filter Q :=
    fun st2 => foldlFilterInv _ Q (fortuneBranchRelFilter Q fp np2 _ (hbc fp np2) (hbx fp np2)) _ st2
  have hban : ∀ (st2 : PState),
      (fortuneBanhap st2 fp np2 (fortuneInteractionW np2)).interactions.filter Q
        = st2.interactions.filter Q :=
    fun st2 => fortuneBanhapFilter Q fp np2 _ (hbh fp np2) st2
  by_cases hnp : np2 = np
  · subst hnp
    simp only [fortunePairStep, hc, if_true]
    split_ifs <;> simp only [hban, hbranch]
  · have hsc : Q (.stemComb fp np2) = false := by
      simp [hQ, Interaction.isOverlayStemWith, hnp]
    have hsx : Q (.stemClash fp np2) = false := by
      simp [hQ, Interaction.isOverlayStemWith, hnp]
    have hstem : ∀ (st2 : PState),
        ((checkStemPair (st2.sd fp).si (st2.sd np2).si).foldl
          (fortuneStemRel fp np2 (fortuneInteractionW np2)) st2).interactions.filter Q
          = st2.interactions.filter Q :=
      fun st2 => foldlFilterInv _ Q (fortuneStemRelFilter Q fp np2 _ hsc hsx) _ st2
    simp only [fortunePairStep]
    split_ifs <;> simp only [hban, hbranch, hstem]

/-- When the natal position `np` was branch-combined in the natal phase,
no overlay pair step records a branch relation targeting `np`. -/
theorem fortunePairStepFilterBranch (fps : List Pos) (np : Pos) (st : PState) (fp np2 : Pos)
    (hc : st.combinedBranches.contains np = true) :
    (fortunePairStep st fp np2).interactions.filter
        (fun i => i.isOverlayBranchWith fps np)
      = st.interactions.filter (fun i => i.isOverlayBranchWith fps np) := by
  set Q : Interaction → Bool := fun i => i.isOverlayBranchWith fps np with hQ
  have hsckind : ∀ s t : Pos, Q (.stemComb s t) = false := fun s t => rfl
  have hsxkind : ∀ s t : Pos, Q (.stemClash s t) = false := fun s t => rfl
  have hstem : ∀ (st2 : PState),
      ((checkStemPair (st2.sd fp).si (st2.sd np2).si).foldl
        (fortuneStemRel fp np2 (fortuneInteractionW np2)) st2).interactions.filter Q
        = st2.interactions.filter Q :=
    fun st2 => foldlFilterInv _ Q (fortuneStemRelFilter Q fp np2 _ (hsckind fp np2) (hsxkind fp np2)) _ st2
  have hstemCB : ∀ (st2 : PState),
      ((checkStemPair (st2.sd fp).si (st2.sd np2).si).foldl
        (fortuneStemRel fp np2 (fortuneInteractionW np2)) st2).combinedBranches
        = st2.combinedBranches :=
    fun st2 => (foldlCombinedInv _ (fortuneStemRelCombined fp np2 _) _ st2).2
  by_cases hnp : np2 = np
  · subst hnp
    simp only [fortunePairStep]
    by_cases hs : st.combinedStems.contains np2 = true
    · rw [if_pos hs, if_pos hc, if_pos hc]
    · rw [if_neg hs]
      have hcb : ((checkStemPair (st.sd fp).si (st.sd np2).si).foldl
          (fortuneStemRel fp np2 (fortuneInteractionW np2)) st).combinedBranches.contains np2
          = true := by rw [hstemCB]; exact hc
      rw [if_pos hcb, if_pos hcb]
      exact hstem st
  · have hbc : Q (.branchComb fp np2) = false := by
      simp [hQ, Interaction.isOverlayBranchWith, hnp]
    have hbx : Q (.branchClash fp np2) = false := by
      simp [hQ, Interaction.isOverlayBranchWith, hnp]
    have hbh : Q (.banhap fp np2) = false := by
      simp [hQ, Interaction.isOverlayBranchWith, hnp]
    have hbranch : ∀ (st2 : PState),
        ((checkBranchPair (st2.bd fp).bi (st2.bd np2).bi).foldl
          (fortuneBranchRel fp np2 (fortuneInteractionW np2)) st2).interactions.filter Q
          = st2.interactions.filter Q :=
      fun st2 => foldlFilterInv _ Q (fortuneBranchRelFilter Q fp np2 _ hbc hbx) _ st2
    have hban : ∀ (st2 : PState),
        (fortuneBanhap st2 fp np2 (fortuneInteractionW np2)).interactions.filter Q
          = st2.interactions.filter Q :=
      fun st2 => fortuneBanhapFilter Q fp np2 _ hbh st2
    simp only [fortunePairStep]
    split_ifs <;> simp only [hban, hbranch, hstem]

/-- The triad step appends only triad interactions and keeps the
combined sets. -/
theorem applyTripleCombineFilter (Q : Interaction → Bool)
    (hsam : ∀ ms : List Pos, Q (.samhap ms) = false)
    (st : PState) (aps fps2 : List Pos) :
    (applyTripleCombine st aps fps2).interactions.filter Q = st.interactions.filter Q := by
  unfold applyTripleCombine
  apply foldlFilterInv
  intro st t
  have hbd : ∀ (l : List Pos) (st : PState) (e : El) (fv : ℚ),
      (l.foldl (fun st pos =>
        updBd st pos fun b => { b with tr := b.tr ++ [(e, fv)], of := b.of * (1 - fv) }) st).interactions
        = st.interactions := by
    intro l
    induction l with
    | nil => intro st e fv; rfl
    | cons x xs ih => intro st e fv; rw [List.foldl_cons, ih]; rfl
  dsimp only
  split_ifs <;> simp [List.filter_append, hsam, hbd]

/-- Membership-aware fold variant of `foldlFilterInv`. -/
theorem foldlFilterInvMem {β : Type} (step : PState → β → PState) (Q : Interaction → Bool) :
    ∀ (l : List β),
      (∀ st b, b ∈ l → (step st b).interactions.filter Q = st.interactions.filter Q) →
      ∀ st, (l.foldl step st).interactions.filter Q = st.interactions.filter Q := by
  intro l
  induction l with
  | nil => intro _ st; rfl
  | cons x xs ih =>
    intro h st
    rw [List.foldl_cons, ih (fun st b hb => h st b (List.mem_cons_of_mem x hb)) _,
      h st x (List.mem_cons_self x xs)]

/-- The natal phase leaves any filtered view dead on its appended
interactions, when the filter is dead on interactions sourced at natal
positions. -/
theorem natalPhaseFilterDead (Q : Interaction → Bool) (hasTime : Bool) (st0 : PState)
    (h : ∀ p1 p2 : Pos, p1 ∈ natalPositions hasTime →
      Q (.stemComb p1 p2) = false ∧ Q (.stemClash p1 p2) = false ∧
      Q (.branchComb p1 p2) = false ∧ Q (.branchClash p1 p2) = false ∧
      Q (.banhap p1 p2) = false) :
    (natalStateC st0 hasTime).interactions.filter Q = st0.interactions.filter Q := by
  unfold natalStateC
  apply foldlFilterInvMem
  intro st pr hpr
  obtain ⟨p1, p2⟩ := pr
  have hm : p1 ∈ natalPositions hasTime := (List.of_mem_zip hpr).1
  obtain ⟨h1, h2, h3, h4, h5⟩ := h p1 p2 hm
  exact natalPairStepFilter Q p1 p2 h1 h2 h3 h4 h5 st

/-- Through the whole overlay phase, no stem interaction targeting a
natal position that is already stem-combined is recorded. -/
theorem fortunePhaseFilterStem (fps : List Pos) (np : Pos) (hasTime : Bool)
    (f : FortunePillars) (st : PState) (hc : st.combinedStems.contains np = true) :
    ((fortunePositions f).foldl (fun st fp =>
        (natalPositions hasTime).foldl (fun st np2 => fortunePairStep st fp np2) st)
      st).interactions.filter (fun i => i.isOverlayStemWith fps np)
      = st.interactions.filter (fun i => i.isOverlayStemWith fps np) := by
  refine foldlFilterInvCond _ _ (fun st => st.combinedStems.contains np = true)
    ?_ ?_ _ st hc
  · intro st fp hI
    rw [(foldlCombinedInv _ (fun st np2 => fortunePairStepCombined st fp np2) _ st).1]
    exact hI
  · intro st fp hI
    refine foldlFilterInvCond _ _ (fun st => st.combinedStems.contains np = true)
      ?_ ?_ _ st hI
    · intro st np2 hI2
      rw [(fortunePairStepCombined st fp np2).1]
      exact hI2
    · intro st np2 hI2
      exact fortunePairStepFilterStem fps np st fp np2 hI2

/-- Through the whole overlay phase, no branch relation targeting a
natal position that is already branch-combined is recorded. -/
theorem fortunePhaseFilterBranch (fps : List Pos) (np : Pos) (hasTime : Bool)
    (f : FortunePillars) (st : PState) (hc : st.combinedBranches.contains np = true) :
    ((fortunePositions f).foldl (fun st fp =>
        (natalPositions hasTime).foldl (fun st np2 => fortunePairStep st fp np2) st)
      st).interactions.filter (fun i => i.isOverlayBranchWith fps np)
      = st.interactions.filter (fun i => i.isOverlayBranchWith fps np) := by
  refine foldlFilterInvCond _ _ (fun st => st.combinedBranches.contains np = true)
    ?_ ?_ _ st hc
  · intro st fp hI
    rw [(foldlCombinedInv _ (fun st np2 => fortunePairStepCombined st fp np2) _ st).2]
    exact hI
  · intro st fp hI
    refine foldlFilterInvCond _ _ (fun st => st.combinedBranches.contains np = true)
      ?_ ?_ _ st hI
    · intro st np2 hI2
      rw [(fortunePairStepCombined st fp np2).2]
      exact hI2
    · intro st np2 hI2
      exact fortunePairStepFilterBranch fps np st fp np2 hI2

set_option maxRecDepth 8000 in
/-- C4 counterexample: natal chart day=50 (stem 갑, branch 인),
month=25 (stem 기, branch 축), year=52, overlay daeun=26 (stem 경),
no birth time.  The day and month stems combine internally (갑기합),
consuming both; the daeun stem 경 forms a stem-clash pair with the day
stem 갑 per the clash table, yet the output records no stem-clash
interaction and no clash event at all — the clash is skipped, not
"still detected" as the claim states. -/
theorem overlayClashSkippedExample :
    checkStemPair (stemOf 26) (stemOf 50) = [.clash] ∧
    (computeProfile ⟨0, 50, 25, 52⟩ false ⟨some 26, none, none⟩).interactions
      = [.stemComb .day .month] ∧
    (computeProfile ⟨0, 50, 25, 52⟩ false ⟨some 26, none, none⟩).clashEvents = [] := by
  refine ⟨?_, ?_, ?_⟩ <;> with_unfolding_all decide

/-- C4 amended: once a natal position's stem (resp. branch) has been
consumed by a combine internal to the natal chart, that position is
excluded from the whole overlay stem (resp. branch) block — combines
and clashes alike: the output interactions contain no overlay-sourced
stem (resp. branch) relation targeting it.  (Natal-internal clash
detection in later adjacent pairs is unaffected.) -/
theorem combinedSkipsOverlay : ∀ (n : NatalIdxs) (hasTime : Bool) (f : FortunePillars) (np : Pos),
    (np ∈ (natalState n hasTime f).combinedStems →
      (computeProfile n hasTime f).interactions.filter
        (fun i => i.isOverlayStemWith (fortunePositions f) np) = []) ∧
    (np ∈ (natalState n hasTime f).combinedBranches →
      (computeProfile n hasTime f).interactions.filter
        (fun i => i.isOverlayBranchWith (fortunePositions f) np) = []) := by
  intro n hasTime f np
  have hinter : (computeProfile n hasTime f).interactions
      = (tripleStateC (initState n hasTime f) hasTime f).interactions := rfl
  constructor
  · intro hmem
    have hc : (natalState n hasTime f).combinedStems.contains np = true :=
      containsTrueIff.mpr hmem
    unfold natalState at hc
    rw [hinter]
    unfold tripleStateC
    rw [applyTripleCombineFilter _ (fun ms => rfl)]
    unfold fortuneStateC
    rw [fortunePhaseFilterStem (fortunePositions f) np hasTime f _ hc]
    rw [natalPhaseFilterDead _ hasTime _ ?_]
    · rfl
    · intro p1 p2 hp1
      have hfc : p1 ∉ fortunePositions f :=
        containsFalseIff.mp (natalPosNotFortune f hasTime p1 hp1)
      refine ⟨?_, ?_, rfl, rfl, rfl⟩ <;> simp [Interaction.isOverlayStemWith, hfc]
  · intro hmem
    have hc : (natalState n hasTime f).combinedBranches.contains np = true :=
      containsTrueIff.mpr hmem
    unfold natalState at hc
    rw [hinter]
    unfold tripleStateC
    rw [applyTripleCombineFilter _ (fun ms => rfl)]
    unfold fortuneStateC
    rw [fortunePhaseFilterBranch (fortunePositions f) np hasTime f _ hc]
    rw [natalPhaseFilterDead _ hasTime _ ?_]
    · rfl
    · intro p1 p2 hp1
      have hfc : p1 ∉ fortunePositions f :=
        containsFalseIff.mp (natalPosNotFortune f hasTime p1 hp1)
      refine ⟨rfl, rfl, ?_, ?_, ?_⟩ <;> simp [Interaction.isOverlayBranchWith, hfc]

set_option maxRecDepth 8000 in
/-- C4 amended witness: in the counterexample chart, the day position is
stem-combined in the natal phase, and the final interactions contain no
overlay stem relation targeting it. -/
theorem combinedSkipsOverlayWitness :
    (computeProfile ⟨0, 50, 25, 52⟩ false ⟨some 26, none, none⟩).interactions.filter
      (fun i => i.isOverlayStemWith (fortunePositions ⟨some 26, none, none⟩) .day) = [] :=
  (combinedSkipsOverlay ⟨0, 50, 25, 52⟩ false ⟨some 26, none, none⟩ .day).1
    (by with_unfolding_all decide)

/-- The scan halts immediately once 50 day-samples are exhausted. -/
theorem scanGoStop (sun : ℝ → ℝ) (target j0 : ℝ) (i : ℕ) (h : 50 ≤ i) :
    scanGo sun target j0 i = none := by
  rw [scanGo]
  exact dif_pos h

/-- The scan returns the current step when the crossing test fires. -/
theorem scanGoHit (sun : ℝ → ℝ) (target j0 : ℝ) (i : ℕ) (h : i < 50)
    (hd : detectsCross sun target j0 i) :
    scanGo sun target j0 i = some i := by
  rw [scanGo, dif_neg (by omega), if_pos hd]

/-- The scan advances one day when the crossing test does not fire. -/
theorem scanGoMiss (sun : ℝ → ℝ) (target j0 : ℝ) (i : ℕ) (h : i < 50)
    (hd : ¬ detectsCross sun target j0 i) :
    scanGo sun target j0 i = scanGo sun target j0 (i + 1) := by
  rw [scanGo, dif_neg (by omega), if_neg hd]

/-- Full characterization of the bounded scan from any start step:
`some k` exactly at the first crossing within the 50-sample budget,
`none` exactly when no step in the remaining window crosses. -/
theorem scanGoSpecAux (sun : ℝ → ℝ) (target j0 : ℝ) :
    ∀ (n i : ℕ), 50 ≤ i + n →
      ((∀ k, scanGo sun target j0 i = some k ↔
        (i ≤ k ∧ k < 50 ∧ detectsCross sun target j0 k ∧
          ∀ j, i ≤ j → j < k → ¬ detectsCross sun target j0 j)) ∧
       (scanGo sun target j0 i = none ↔
        ∀ j, i ≤ j → j < 50 → ¬ detectsCross sun target j0 j)) := by
  intro n
  induction n with
  | zero =>
    intro i h
    refine ⟨fun k => ?_, ?_⟩
    · rw [scanGoStop sun target j0 i (by omega)]
      constructor
      · intro hk; exact absurd hk (by simp)
      · rintro ⟨h1, h2, -, -⟩; omega
    · rw [scanGoStop sun target j0 i (by omega)]
      constructor
      · intro _ j hj1 hj2 _; omega
      · intro _; rfl
  | succ n ih =>
    intro i h
    by_cases hi : 50 ≤ i
    · refine ⟨fun k => ?_, ?_⟩
      · rw [scanGoStop sun target j0 i hi]
        constructor
        · intro hk; exact absurd hk (by simp)
        · rintro ⟨h1, h2, -, -⟩; omega
      · rw [scanGoStop sun target j0 i hi]
        constructor
        · intro _ j hj1 hj2 _; omega
        · intro _; rfl
    · by_cases hd : detectsCross sun target j0 i
      · refine ⟨fun k => ?_, ?_⟩
        · rw [scanGoHit sun target j0 i (by omega) hd]
          constructor
          · intro hk
            have hk' : i = k := by exact Option.some.inj hk
            subst hk'
            exact ⟨le_refl i, by omega, hd, fun j hj1 hj2 => by omega⟩
          · rintro ⟨h1, h2, h3, h4⟩
            have hk' : k = i := by
              by_contra hne
              exact h4 i (le_refl i) (by omega) hd
            rw [hk']
        · rw [scanGoHit sun target j0 i (by omega) hd]
          constructor
          · intro hk; exact absurd hk (by simp)
          · intro hall; exact absurd hd (hall i (le_refl i) (by omega))
      · have hrec := ih (i + 1) (by omega)
        refine ⟨fun k => ?_, ?_⟩
        · rw [scanGoMiss sun target j0 i (by omega) hd, hrec.1 k]
          constructor
          · rintro ⟨h1, h2, h3, h4⟩
            refine ⟨by omega, h2, h3, fun j hj1 hj2 => ?_⟩
            rcases Nat.eq_or_lt_of_le hj1 with rfl | hlt
            · exact hd
            · exact h4 j (by omega) hj2
          · rintro ⟨h1, h2, h3, h4⟩
            have hik : i < k := by
              rcases Nat.eq_or_lt_of_le h1 with rfl | hlt
              · exact absurd h3 hd
              · exact hlt
            exact ⟨by omega, h2, h3, fun j hj1 hj2 => h4 j (by omega) hj2⟩
        · rw [scanGoMiss sun target j0 i (by omega) hd, hrec.2]
          constructor
          · intro hall j hj1 hj2
            rcases Nat.eq_or_lt_of_le hj1 with rfl | hlt
            · exact hd
            · exact hall j (by omega) hj2
          · intro hall j hj1 hj2
            exact hall j (by omega) hj2

/-- One bisection step keeps the interval ordered and nested. -/
theorem bisectStepBounds (sun : ℝ → ℝ) (target : ℝ) (p : ℝ × ℝ) (h : p.1 ≤ p.2) :
    p.1 ≤ (bisectStep sun target p).1 ∧
    (bisectStep sun target p).1 ≤ (bisectStep sun target p).2 ∧
    (bisectStep sun target p).2 ≤ p.2 := by
  unfold bisectStep
  dsimp only
  split_ifs <;> refine ⟨?_, ?_, ?_⟩ <;> simp <;> linarith

/-- One bisection step halves the interval width. -/
theorem bisectStepWidth (sun : ℝ → ℝ) (target : ℝ) (p : ℝ × ℝ) :
    (bisectStep sun target p).2 - (bisectStep sun target p).1 = (p.2 - p.1) / 2 := by
  unfold bisectStep
  dsimp only
  split_ifs <;> ring

/-- Iterated bisection keeps the interval ordered and inside the
initial bracket. -/
theorem iterateBisectBounds (sun : ℝ → ℝ) (target : ℝ) :
    ∀ (n : ℕ) (p : ℝ × ℝ), p.1 ≤ p.2 →
      p.1 ≤ ((bisectStep sun target)^[n] p).1 ∧
      ((bisectStep sun target)^[n] p).1 ≤ ((bisectStep sun target)^[n] p).2 ∧
      ((bisectStep sun target)^[n] p).2 ≤ p.2 := by
  intro n
  induction n with
  | zero => intro p h; exact ⟨le_refl _, h, le_refl _⟩
  | succ n ih =>
    intro p h
    rw [Function.iterate_succ_apply]
    have hb := bisectStepBounds sun target p h
    have hn := ih (bisectStep sun target p) hb.2.1
    exact ⟨hb.1.trans hn.1, hn.2.1, hn.2.2.trans hb.2.2⟩

/-- Iterated bisection divides the interval width by `2 ^ n`. -/
theorem iterateBisectWidth (sun : ℝ → ℝ) (target : ℝ) :
    ∀ (n : ℕ) (p : ℝ × ℝ),
      ((bisectStep sun target)^[n] p).2 - ((bisectStep sun target)^[n] p).1
        = (p.2 - p.1) / 2 ^ n := by
  intro n
  induction n with
  | zero => intro p; simp
  | succ n ih =>
    intro p
    rw [Function.iterate_succ_apply, ih (bisectStep sun target p), bisectStepWidth]
    ring

/-- The refined crossing instant stays inside the bracketing interval. -/
theorem refineCrossMem (sun : ℝ → ℝ) (target a b : ℝ) (h : a ≤ b) :
    a ≤ refineCross sun target a b ∧ refineCross sun target a b ≤ b := by
  unfold refineCross
  have hb := iterateBisectBounds sun target 52 (a, b) h
  constructor <;> dsimp only <;> [linarith [hb.1, hb.2.1]; linarith [hb.2.1, hb.2.2]]

/-- C5: the solar-term solver scans day-by-day from the approximate
start for at most 50 samples and succeeds exactly at the first step
whose previous offset exceeds 300° while the current offset is below
60°; on success it returns the bisection refinement of that one-day
bracket, which stays inside the bracket, after 52 halvings of the
interval; on exhaustion it returns the structured term-not-found error
and the cache is left unchanged; a cache hit short-circuits to the
stored instant, and after a successful call any later call with the
same `(year, term)` key returns the cached value. -/
theorem findSolarTermSpec (sun : ℝ → ℝ) (year : ℤ) (termId : ℕ) (target j0 : ℝ)
    (cache : TermCacheT) :
    (∀ i, termScan sun target j0 = some i ↔
      (1 ≤ i ∧ i < 50 ∧ detectsCross sun target j0 i ∧
        ∀ j, 1 ≤ j → j < i → ¬ detectsCross sun target j0 j)) ∧
    (termScan sun target j0 = none ↔
      ∀ j, 1 ≤ j → j < 50 → ¬ detectsCross sun target j0 j) ∧
    (∀ i, termScan sun target j0 = some i →
      findSolarTermCompute sun year termId target j0
        = .ok (refineCross sun target (j0 + i - 1) (j0 + i)) ∧
      j0 + i - 1 ≤ refineCross sun target (j0 + i - 1) (j0 + i) ∧
      refineCross sun target (j0 + i - 1) (j0 + i) ≤ j0 + i) ∧
    (∀ a b : ℝ,
      ((bisectStep sun target)^[52] (a, b)).2 - ((bisectStep sun target)^[52] (a, b)).1
        = (b - a) / 2 ^ 52) ∧
    (termScan sun target j0 = none →
      findSolarTermCompute sun year termId target j0
        = .error (.termNotFound year termId) ∧
      (List.lookup (year, termId) cache = none →
        findSolarTermMemo sun year termId target j0 cache
          = (.error (.termNotFound year termId), cache))) ∧
    (∀ v, List.lookup (year, termId) cache = some v →
      findSolarTermMemo sun year termId target j0 cache = (.ok v, cache)) ∧
    (∀ r, findSolarTermCompute sun year termId target j0 = .ok r →
      List.lookup (year, termId) cache = none →
      ∀ (target2 j02 : ℝ),
        findSolarTermMemo sun year termId target2 j02
            ((findSolarTermMemo sun year termId target j0 cache).2)
          = (.ok r, (findSolarTermMemo sun year termId target j0 cache).2)) := by
  refine ⟨?_, ?_, ?_, ?_, ?_, ?_, ?_⟩
  · intro i
    exact (scanGoSpecAux sun target j0 49 1 (by omega)).1 i
  · exact (scanGoSpecAux sun target j0 49 1 (by omega)).2
  · intro i hscan
    have hmem := refineCrossMem sun target (j0 + i - 1) (j0 + i) (by linarith)
    refine ⟨?_, hmem.1, hmem.2⟩
    simp [findSolarTermCompute, hscan]
  · intro a b
    exact iterateBisectWidth sun target 52 (a, b)
  · intro hnone
    refine ⟨?_, fun hmiss => ?_⟩
    · simp [findSolarTermCompute, hnone]
    · simp [findSolarTermMemo, hmiss, findSolarTermCompute, hnone]
  · intro v hv
    simp [findSolarTermMemo, hv]
  · intro r hr hmiss target2 j02
    have h2 : (findSolarTermMemo sun year termId target j0 cache).2
        = ((year, termId), r) :: cache := by
      simp [findSolarTermMemo, hmiss, hr]
    rw [h2]
    simp [findSolarTermMemo, List.lookup]

/-- C5 witness: with a sun function giving offset 350° on day 0 and 10°
on day 1, the crossing is detected at step 1, the computation succeeds
with the refined instant inside `[0, 1]`, and a primed cache returns
its stored value unchanged. -/
theorem findSolarTermSpecWitness :
    findSolarTermCompute (fun x => if x < 1 then (350 : ℝ) else 10) 2024 0 0 0
      = .ok (refineCross (fun x => if x < 1 then (350 : ℝ) else 10) 0 0 1) ∧
    (0 : ℝ) ≤ refineCross (fun x => if x < 1 then (350 : ℝ) else 10) 0 0 1 ∧
    refineCross (fun x => if x < 1 then (350 : ℝ) else 10) 0 0 1 ≤ 1 ∧
    findSolarTermMemo (fun x => if x < 1 then (350 : ℝ) else 10) 2024 0 0 0
        [((2024, 0), (5 : ℝ))]
      = (.ok 5, [((2024, 0), (5 : ℝ))]) := by
  have hspec := findSolarTermSpec (fun x => if x < 1 then (350 : ℝ) else 10) 2024 0 0 0 []
  have hspec2 := findSolarTermSpec (fun x => if x < 1 then (350 : ℝ) else 10) 2024 0 0 0
    [((2024, 0), (5 : ℝ))]
  have hd : detectsCross (fun x => if x < 1 then (350 : ℝ) else 10) 0 0 1 := by
    constructor <;> norm_num [dayOffset, offsetJD, jsMod, jsTrunc]
  have hscan : termScan (fun x => if x < 1 then (350 : ℝ) else 10) 0 0 = some 1 :=
    (hspec.1 1).mpr ⟨le_refl 1, by omega, hd, fun j hj1 hj2 => by omega⟩
  have hok := hspec.2.2.1 1 hscan
  have hmemo := hspec2.2.2.2.2.2.1 5 (by simp [List.lookup])
  norm_num at hok
  exact ⟨hok.1, hok.2.1, hok.2.2, hmemo⟩

/-- Reducing a branch index mod 12 is the identity on `Fin 12`. -/
theorem finOfMod12Fin : ∀ k : Fin 12, finOfMod12 (k : ℤ) = k := by
  decide

/-- The 목(木) column of the ratio table is the 수(水) column rotated
back three branches (90°). -/
theorem rotThree : ∀ k : Fin 12,
    branchOhengRatiosQ (finOfMod12 ((k : ℤ) - 3)) .su = branchOhengRatiosQ k .mok := by
  with_unfolding_all decide

/-- The 화(火) column is the 수(水) column rotated back six branches (180°). -/
theorem rotSix : ∀ k : Fin 12,
    branchOhengRatiosQ (finOfMod12 ((k : ℤ) - 6)) .su = branchOhengRatiosQ k .hwa := by
  with_unfolding_all decide

/-- The 금(金) column is the 수(水) column rotated back nine branches (270°). -/
theorem rotNine : ∀ k : Fin 12,
    branchOhengRatiosQ (finOfMod12 ((k : ℤ) - 9)) .su = branchOhengRatiosQ k .geum := by
  with_unfolding_all decide

/-- Every row of the static ratio table sums to 1. -/
theorem ratioRowSum : ∀ k : Fin 12,
    branchOhengRatiosQ k .su + branchOhengRatiosQ k .mok + branchOhengRatiosQ k .hwa +
      branchOhengRatiosQ k .geum + branchOhengRatiosQ k .to = 1 := by
  with_unfolding_all decide

/-- Every entry of the static ratio table is nonnegative. -/
theorem ratioNonneg : ∀ (k : Fin 12) (e : El), 0 ≤ branchOhengRatiosQ k e := by
  with_unfolding_all decide

/-- The DC coefficient is the plain average of the knot values. -/
theorem coefAZero : fourierCoefA 0 = (∑ k : Fin 12, baseWater k) / 12 := by
  unfold fourierCoefA
  simp

/-- The Nyquist coefficient keeps its halved normalization. -/
theorem coefASix :
    fourierCoefA 6
      = (∑ k : Fin 12, baseWater k * Real.cos (2 * Real.pi * 6 * k / 12)) / 12 := by
  unfold fourierCoefA
  norm_num

/-- The interior cosine coefficients use the doubled normalization. -/
theorem coefASucc (n : ℕ) (h1 : n + 1 ≠ 6) :
    fourierCoefA (n + 1)
      = (2 / 12) * ∑ k : Fin 12, baseWater k * Real.cos (2 * Real.pi * (n + 1) * k / 12) := by
  unfold fourierCoefA
  rw [if_neg (by omega : ¬(n + 1 = 0 ∨ n + 1 = 6))]
  norm_cast

open Real in
/-- Dirichlet kernel at the 12 knots: the 12-term cosine sum collapses
to 12 on multiples of 12 and vanishes elsewhere. -/
theorem cosKernel (m : ℤ) :
    ∑ n ∈ Finset.range 12, Real.cos (2 * π * n * m / 12)
      = if (12 : ℤ) ∣ m then 12 else 0 := by
  by_cases h : (12 : ℤ) ∣ m
  · rw [if_pos h]
    obtain ⟨t, rfl⟩ := h
    have hterm : ∀ n ∈ Finset.range 12,
        Real.cos (2 * π * n * ((12 * t : ℤ) : ℝ) / 12) = 1 := by
      intro n _
      have harg : 2 * π * n * ((12 * t : ℤ) : ℝ) / 12 = ((n * t : ℤ) : ℝ) * (2 * π) := by
        push_cast
        ring
      rw [harg, Real.cos_int_mul_two_pi]
    rw [Finset.sum_congr rfl hterm]
    simp
  · rw [if_neg h]
    have hz12 : Complex.exp (2 * π * Complex.I * m / 12) ^ 12 = 1 := by
      rw [← Complex.exp_nat_mul]
      have harg : ((12 : ℕ) : ℂ) * (2 * π * Complex.I * m / 12)
          = (m : ℂ) * (2 * π * Complex.I) := by
        push_cast
        ring
      rw [harg, Complex.exp_int_mul_two_pi_mul_I]
    have hzne : Complex.exp (2 * π * Complex.I * m / 12) ≠ 1 := by
      intro hcontra
      rw [Complex.exp_eq_one_iff] at hcontra
      obtain ⟨n, hn⟩ := hcontra
      apply h
      have hne : (2 * (π : ℂ) * Complex.I) ≠ 0 := by
        simp [Real.pi_ne_zero, Complex.I_ne_zero]
      have hmul : (2 * (π : ℂ) * Complex.I) * (m : ℂ)
          = (2 * (π : ℂ) * Complex.I) * (12 * n) := by
        linear_combination 12 * hn
      have hmn : (m : ℂ) = 12 * n := mul_left_cancel₀ hne hmul
      exact ⟨n, by exact_mod_cast hmn⟩
    have hsum : ∑ n ∈ Finset.range 12, Complex.exp (2 * π * Complex.I * m / 12) ^ n = 0 := by
      rw [geom_sum_eq hzne 12, hz12]
      simp
    have hre : ∀ n : ℕ,
        (Complex.exp (2 * π * Complex.I * m / 12) ^ n).re
          = Real.cos (2 * π * n * m / 12) := by
      intro n
      rw [← Complex.exp_nat_mul]
      have harg : (n : ℂ) * (2 * π * Complex.I * m / 12)
          = ((2 * π * n * m / 12 : ℝ) : ℂ) * Complex.I := by
        push_cast
        ring
      rw [harg, Complex.exp_ofReal_mul_I_re]
    calc ∑ n ∈ Finset.range 12, Real.cos (2 * π * n * m / 12)
        = ∑ n ∈ Finset.range 12, (Complex.exp (2 * π * Complex.I * m / 12) ^ n).re :=
          Finset.sum_congr rfl (fun n _ => (hre n).symm)
      _ = (∑ n ∈ Finset.range 12, Complex.exp (2 * π * Complex.I * m / 12) ^ n).re := by
          rw [Complex.re_sum]
      _ = 0 := by rw [hsum]; rfl

open Real in
/-- Folding the mirror harmonics `n ↔ 12 − n`: the full 12-term kernel
sum regroups into the engine's `1 + 2·(harmonics 1..5) + Nyquist` shape. -/
theorem cosRegroup (m : ℤ) :
    ∑ n ∈ Finset.range 12, Real.cos (2 * π * n * m / 12)
      = 1 + 2 * (∑ n ∈ Finset.range 5, Real.cos (2 * π * (n + 1) * m / 12))
        + Real.cos (2 * π * 6 * m / 12) := by
  have hmir : ∀ a b : ℝ, a + b = 12 →
      Real.cos (2 * π * a * (m : ℝ) / 12) = Real.cos (2 * π * b * m / 12) := by
    intro a b hab
    have harg : 2 * π * a * (m : ℝ) / 12 = (m : ℝ) * (2 * π) - 2 * π * b * m / 12 := by
      have ha : a = 12 - b := by linarith
      rw [ha]
      ring
    rw [harg]
    exact Real.cos_int_mul_two_pi_sub _ m
  have h0 : Real.cos (2 * π * (0 : ℝ) * (m : ℝ) / 12) = 1 := by
    norm_num
  simp only [Finset.sum_range_succ, Finset.sum_range_zero]
  push_cast
  rw [hmir 7 5 (by norm_num), hmir 8 4 (by norm_num), hmir 9 3 (by norm_num),
    hmir 10 2 (by norm_num), hmir 11 1 (by norm_num), h0]
  ring

open Real in
/-- Exact Fourier reconstruction at the knots: the truncated series
evaluated at any integer multiple of 30° reproduces the `BASE_WATER`
knot value at the corresponding branch index. -/
theorem fourierBaseKnot (j : ℤ) :
    fourierBase (2 * π * j / 12) = baseWater (finOfMod12 j) := by
  have h5 : ∀ n ∈ Finset.range 5,
      fourierCoefA (n + 1) * Real.cos ((n + 1) * (2 * π * j / 12))
        + fourierCoefB (n + 1) * Real.sin ((n + 1) * (2 * π * j / 12))
      = ∑ k : Fin 12, baseWater k
          * ((2 / 12) * Real.cos (2 * π * (n + 1) * ((j - (k : ℕ) : ℤ)) / 12)) := by
    intro n hn
    have h6ne : n + 1 ≠ 6 := by
      simp only [Finset.mem_range] at hn
      omega
    rw [coefASucc n h6ne]
    unfold fourierCoefB
    rw [Finset.mul_sum, Finset.mul_sum, Finset.sum_mul, Finset.sum_mul,
      ← Finset.sum_add_distrib]
    refine Finset.sum_congr rfl (fun k _ => ?_)
    push_cast
    have harg : 2 * π * ((n : ℝ) + 1) * ((j : ℝ) - ((k : ℕ) : ℝ)) / 12
        = ((n : ℝ) + 1) * (2 * π * (j : ℝ) / 12) - 2 * π * ((n : ℝ) + 1) * ((k : ℕ) : ℝ) / 12 := by
      ring
    rw [harg, Real.cos_sub]
    ring
  have h6 : fourierCoefA 6 * Real.cos (6 * (2 * π * j / 12))
      = ∑ k : Fin 12, baseWater k
          * ((1 / 12) * Real.cos (2 * π * 6 * ((j - (k : ℕ) : ℤ)) / 12)) := by
    rw [coefASix, Finset.sum_div, Finset.sum_mul]
    refine Finset.sum_congr rfl (fun k _ => ?_)
    have hsk : Real.sin (((k : ℕ) : ℝ) * π) = 0 := by
      have h := Real.sin_int_mul_pi ((k : ℕ) : ℤ)
      push_cast at h
      exact h
    push_cast
    have harg : 2 * π * 6 * ((j : ℝ) - ((k : ℕ) : ℝ)) / 12
        = (j : ℝ) * π - ((k : ℕ) : ℝ) * π := by ring
    have hargj : 6 * (2 * π * (j : ℝ) / 12) = (j : ℝ) * π := by ring
    have hargk : 2 * π * 6 * ((k : ℕ) : ℝ) / 12 = ((k : ℕ) : ℝ) * π := by ring
    rw [harg, hargj, hargk, Real.cos_sub, hsk]
    ring
  have h0' : fourierCoefA 0
      = ∑ k : Fin 12, baseWater k
          * ((1 / 12) * Real.cos (2 * π * 0 * ((j - (k : ℕ) : ℤ)) / 12)) := by
    rw [coefAZero, Finset.sum_div]
    refine Finset.sum_congr rfl (fun k _ => ?_)
    simp
    ring
  have hk : ∀ k : Fin 12,
      baseWater k * ((1 / 12) * Real.cos (2 * π * 0 * ((j - (k : ℕ) : ℤ)) / 12))
        + (∑ n ∈ Finset.range 5, baseWater k
            * ((2 / 12) * Real.cos (2 * π * (n + 1) * ((j - (k : ℕ) : ℤ)) / 12)))
        + baseWater k * ((1 / 12) * Real.cos (2 * π * 6 * ((j - (k : ℕ) : ℤ)) / 12))
      = baseWater k * (if (12 : ℤ) ∣ (j - (k : ℕ)) then 1 else 0) := by
    intro k
    have hker := cosKernel (j - (k : ℕ))
    rw [cosRegroup] at hker
    have hc0 : Real.cos (2 * π * 0 * ((j - (k : ℕ) : ℤ) : ℝ) / 12) = 1 := by
      norm_num
    have hfac : ∑ n ∈ Finset.range 5, baseWater k
          * ((2 / 12) * Real.cos (2 * π * (n + 1) * ((j - (k : ℕ) : ℤ)) / 12))
        = baseWater k * (2 / 12)
            * ∑ n ∈ Finset.range 5, Real.cos (2 * π * (n + 1) * ((j - (k : ℕ) : ℤ)) / 12) := by
      rw [Finset.mul_sum]
      exact Finset.sum_congr rfl (fun n _ => by ring)
    rw [hc0, hfac]
    split_ifs at hker ⊢ with hd
    · linear_combination (baseWater k / 12) * hker
    · linear_combination (baseWater k / 12) * hker
  unfold fourierBase
  rw [Finset.sum_congr rfl h5, h0', h6, Finset.sum_comm, ← Finset.sum_add_distrib,
    ← Finset.sum_add_distrib, Finset.sum_congr rfl (fun k _ => hk k)]
  refine (Finset.sum_eq_single (finOfMod12 j) ?_ ?_).trans ?_
  · intro b _ hb
    have hnd : ¬ (12 : ℤ) ∣ (j - (b : ℕ)) := by
      intro hdvd
      apply hb
      apply Fin.ext
      have hlt : (b : ℕ) < 12 := b.isLt
      have hval : (finOfMod12 j).val = (j % 12).toNat := rfl
      omega
    rw [if_neg hnd, mul_zero]
  · intro habs
    exact absurd (Finset.mem_univ _) habs
  · have hval : ((finOfMod12 j : Fin 12) : ℕ) = (j % 12).toNat := rfl
    have hdvd : (12 : ℤ) ∣ (j - ((finOfMod12 j : Fin 12) : ℕ)) := by
      rw [hval]
      omega
    rw [if_pos hdvd, mul_one]

open Real in
/-- C1: evaluated exactly at a branch center angle `k*30°`, the
continuous engine reproduces that branch's static element ratios in all
five components: the Fourier reconstruction hits the knot values, the
90°-rotations produce the other seasonal columns, the clamps are no-ops
on the nonnegative knot values, the earth residual equals the static
earth entry, and the renormalization divides by a total of exactly 1. -/
theorem knotExactness : ∀ (k : Fin 12) (e : El),
    ohengStrengthAtAngle (((k : ℕ) : ℝ) * 30) e = branchOhengRatiosR k e := by
  intro k e
  have hsu : fourierBase (toRad (((k : ℕ) : ℝ) * 30))
      = ((branchOhengRatiosQ k .su : ℚ) : ℝ) := by
    have harg : toRad (((k : ℕ) : ℝ) * 30) = 2 * π * ((k : ℕ) : ℤ) / 12 := by
      unfold toRad
      push_cast
      ring
    rw [harg, fourierBaseKnot]
    unfold baseWater
    rw [finOfMod12Fin k]
  have hmok : fourierBase (toRad (((k : ℕ) : ℝ) * 30) - π / 2)
      = ((branchOhengRatiosQ k .mok : ℚ) : ℝ) := by
    have harg : toRad (((k : ℕ) : ℝ) * 30) - π / 2
        = 2 * π * (((k : ℕ) : ℤ) - 3 : ℤ) / 12 := by
      unfold toRad
      push_cast
      ring
    rw [harg, fourierBaseKnot]
    unfold baseWater
    rw [rotThree k]
  have hhwa : fourierBase (toRad (((k : ℕ) : ℝ) * 30) - π)
      = ((branchOhengRatiosQ k .hwa : ℚ) : ℝ) := by
    have harg : toRad (((k : ℕ) : ℝ) * 30) - π
        = 2 * π * (((k : ℕ) : ℤ) - 6 : ℤ) / 12 := by
      unfold toRad
      push_cast
      ring
    rw [harg, fourierBaseKnot]
    unfold baseWater
    rw [rotSix k]
  have hgeum : fourierBase (toRad (((k : ℕ) : ℝ) * 30) - 3 * (π / 2))
      = ((branchOhengRatiosQ k .geum : ℚ) : ℝ) := by
    have harg : toRad (((k : ℕ) : ℝ) * 30) - 3 * (π / 2)
        = 2 * π * (((k : ℕ) : ℤ) - 9 : ℤ) / 12 := by
      unfold toRad
      push_cast
      ring
    rw [harg, fourierBaseKnot]
    unfold baseWater
    rw [rotNine k]
  have hclamp : ∀ e' : El,
      max ((branchOhengRatiosQ k e' : ℚ) : ℝ) 0 = ((branchOhengRatiosQ k e' : ℚ) : ℝ) :=
    fun e' => max_eq_left (by exact_mod_cast ratioNonneg k e')
  have hto : (1 : ℝ) - ((branchOhengRatiosQ k .su : ℚ) : ℝ)
        - ((branchOhengRatiosQ k .mok : ℚ) : ℝ) - ((branchOhengRatiosQ k .hwa : ℚ) : ℝ)
        - ((branchOhengRatiosQ k .geum : ℚ) : ℝ)
      = ((branchOhengRatiosQ k .to : ℚ) : ℝ) := by
    have hq : (1 : ℚ) - branchOhengRatiosQ k .su - branchOhengRatiosQ k .mok
        - branchOhengRatiosQ k .hwa - branchOhengRatiosQ k .geum
        = branchOhengRatiosQ k .to := by
      have hs := ratioRowSum k
      linarith
    exact_mod_cast hq
  have htot : ((branchOhengRatiosQ k .mok : ℚ) : ℝ) + ((branchOhengRatiosQ k .hwa : ℚ) : ℝ)
        + ((branchOhengRatiosQ k .to : ℚ) : ℝ) + ((branchOhengRatiosQ k .geum : ℚ) : ℝ)
        + ((branchOhengRatiosQ k .su : ℚ) : ℝ)
      = 1 := by
    have hq : branchOhengRatiosQ k .mok + branchOhengRatiosQ k .hwa
        + branchOhengRatiosQ k .to + branchOhengRatiosQ k .geum
        + branchOhengRatiosQ k .su = (1 : ℚ) := by
      have hs := ratioRowSum k
      linarith
    exact_mod_cast hq
  unfold ohengStrengthAtAngle
  simp only [hsu, hmok, hhwa, hgeum, hclamp]
  rw [hto]
  simp only [hclamp]
  rw [htot, if_pos (by norm_num : (0 : ℝ) < 1)]
  cases e <;> simp [branchOhengRatiosR]

end Sinsaju
